import Mathlib

/-!
# Verification of the RIB extractor's core extraction and validation logic

Shallow embedding of the Python modules `utils.py`, `rib_extractor.py`,
`app.py` and `app_with_ocr.py` of the `rib-extractor` repository.
Python strings are embedded as `List Char`; the empty list is Python's
empty string, which the code uses as its "absent" marker.

The repository delegates IBAN checksum arithmetic and BIC registry checks
to the external `python-stdnum` package (`stdnum.iban`, loaded as
`iban_lib`, and an optional `stdnum.bic`, loaded as `bic_lib`).  That
package's code is not part of the repository sources, so its entry points
are modelled here from the specification's description of the standard
algorithms (mod-97 IBAN checksum, FR + 2 check digits + 23-character
BBAN shape, IBAN-from-BBAN check-digit derivation).  The optional BIC
validator is kept abstract as an `Option (List Char → Bool)` parameter,
mirroring the dynamic `importlib` fallback chain in the sources.
-/

namespace RibExtractor

/-! ## Character classes (Python semantics, ASCII fragment)

The development only ever evaluates ASCII texts; Python's Unicode-aware
classes (`\w`, `str.upper`) agree with these definitions on ASCII input. -/

/-- ASCII uppercase letter, the regex class `[A-Z]`. -/
def upperAZ (c : Char) : Bool := 'A' ≤ c && c ≤ 'Z'

/-- ASCII lowercase letter, the regex class `[a-z]`. -/
def lowerAZ (c : Char) : Bool := 'a' ≤ c && c ≤ 'z'

/-- ASCII decimal digit, the regex class `[0-9]` / `str.isdigit` on ASCII. -/
def digit09 (c : Char) : Bool := '0' ≤ c && c ≤ '9'

/-- The regex class `[A-Za-z0-9]`. -/
def pyAlnum (c : Char) : Bool := upperAZ c || lowerAZ c || digit09 c

/-- The regex class `[A-Z0-9]` (used on pre-uppercased text). -/
def upAlnum (c : Char) : Bool := upperAZ c || digit09 c

/-- Python regex word character `\w` (ASCII fragment): `[A-Za-z0-9_]`. -/
def pyWordChar (c : Char) : Bool := pyAlnum c || c = '_'

/-- Python regex whitespace `\s` (ASCII fragment). -/
def isPySpace (c : Char) : Bool :=
  c = ' ' || c = '\t' || c = '\n' || c = '\r' || c = '\x0b' || c = '\x0c'

/-- Python `str.upper` on ASCII. -/
def pyUpper (s : List Char) : List Char := s.map Char.toUpper

/-! ## Text normalizer (`utils.nettoyer`, `utils.compacter`) -/

/-- `utils.compacter`: `re.sub(r'[^A-Za-z0-9]', '', texte)` — drop every
character that is not an ASCII letter or digit. -/
def compacter (texte : List Char) : List Char := texte.filter pyAlnum

/-- `compacter(t).upper()` as computed at the head of
`utils.extraire_iban_valide`. -/
def compactUpper (t : List Char) : List Char := pyUpper (compacter t)

/-- `utils.nettoyer`: remove `'\r'`, then collapse every run of spaces and
tabs into a single space (`re.sub(r'[ \t]+', ' ', texte)`). -/
def nettoyer (texte : List Char) : List Char :=
  go false (texte.filter (· ≠ '\r'))
where
  /-- Collapse runs of `' '`/`'\t'` into one `' '`; the flag records
  whether the previous character belonged to such a run. -/
  go (prevSpace : Bool) : List Char → List Char
    | [] => []
    | c :: rest =>
      if c = ' ' || c = '\t' then
        if prevSpace then go true rest else ' ' :: go true rest
      else c :: go false rest

/-! ## Modelled `stdnum.iban` (spec §4.2)

Modelled from the spec: the repository calls `stdnum.iban`'s `compact`,
`is_valid`, `format` and `from_bban`; that library is not part of the
sources.  The spec describes the algorithms: compaction strips the
separators used in formatted IBANs and uppercases; validity of a French
IBAN is the shape `FR` + 2 digits + 23 alphanumerics together with the
mod-97 checksum (move the 4 leading characters to the end, read letters
as 10..35, the decimal numeral must be ≡ 1 mod 97); `from_bban` forms
`"FR00" + BBAN`, derives the two check digits by the same mod-97
arithmetic and substitutes them. -/

/-- Modelled from the spec: `stdnum.iban.compact` — strip the separator
characters (space, hyphen, dot) and uppercase. -/
def ibanCompact (s : List Char) : List Char :=
  pyUpper (s.filter (fun c => !(c = ' ' || c = '-' || c = '.')))

/-- One step of the mod-97 fold: a digit contributes itself, a letter
(already uppercased by compaction) contributes its two-digit value
10..35.  Only called on alphanumeric characters. -/
def charM97 (acc : Nat) (c : Char) : Nat :=
  if digit09 c then (acc * 10 + (c.toNat - 48)) % 97
  else (acc * 100 + (10 + (c.toNat - 65))) % 97

/-- The decimal numeral of a letter-expanded character string, mod 97. -/
def m97 (l : List Char) : Nat := l.foldl charM97 0

/-- The French IBAN shape `FR\d{2}[A-Z0-9]{23}` (whole-string match,
length 27). -/
def frShape : List Char → Bool
  | 'F' :: 'R' :: a :: b :: rest =>
    digit09 a && digit09 b && rest.length = 23 && rest.all upAlnum
  | _ => false

/-- Modelled from the spec: `stdnum.iban.is_valid` restricted to French
IBANs (the only country the repository ever validates): compact, require
the French shape, and require the rearranged numeral ≡ 1 mod 97. -/
def ibanIsValid (s : List Char) : Bool :=
  frShape (ibanCompact s) && m97 ((ibanCompact s).drop 4 ++ (ibanCompact s).take 4) = 1

/-- Modelled from the spec: `stdnum.iban.format` — compact, then join
4-character groups with single spaces. -/
def ibanFormat (s : List Char) : List Char := groups4 4 (ibanCompact s)
where
  /-- Split into 4-character groups joined by `' '` (a final group of at
  most 4 characters is left as is).  `k` counts the characters still
  allowed in the current group before a space must be inserted. -/
  groups4 (k : Nat) : List Char → List Char
    | [] => []
    | c :: rest =>
      match k with
      | 0 => ' ' :: c :: groups4 3 rest
      | j + 1 => c :: groups4 j rest

/-- Two-digit zero-padded decimal, Python's `'%02d'` for values below 100
(IBAN check digits and RIB keys are always in that range). -/
def pad2 (n : Nat) : List Char := [Nat.digitChar (n / 10), Nat.digitChar (n % 10)]

/-- Python's `f"{n:02d}"`. -/
def f02 (n : Nat) : List Char :=
  if n < 100 then pad2 n else Nat.toDigits 10 n

/-- Modelled from the spec: `stdnum.iban.from_bban("FR", bban)` — compact
the BBAN, compute the check digits as `98 - (numeral(BBAN ++ "FR00") mod 97)`
and build `"FR" ++ check ++ BBAN`. -/
def ibanFromBbanFR (bban : List Char) : List Char :=
  'F' :: 'R' :: pad2 (98 - m97 (ibanCompact bban ++ ['F', 'R', '0', '0']))
    ++ ibanCompact bban

/-! ## IBAN engine (`utils.py`) -/

/-- `utils.lettres_vers_nombres`: uppercase, keep digits, replace each
letter `A`..`Z` by the decimal digits of its value 10..35, drop anything
else. -/
def lettres_vers_nombres (s : List Char) : List Char :=
  (pyUpper s).flatMap fun c =>
    if digit09 c then [c]
    else if 'A' ≤ c && c ≤ 'Z' then pad2 (10 + (c.toNat - 65))
    else []

/-- The numeric value of a digit string, Python's `int` on it. -/
def natOfDigits (l : List Char) : Nat :=
  l.foldl (fun a c => a * 10 + (c.toNat - 48)) 0

/-- `utils.calculer_cle_rib`: empty input gives the absent marker; the
concatenation bank ++ branch ++ letter-mapped account must be all digits;
the key is `97 - (numeral mod 97)`, printed with `%02d`. -/
def calculer_cle_rib (cb cg nc : List Char) : List Char :=
  if cb = [] || cg = [] || nc = [] then []
  -- Python `str.isdigit` on `base`: true iff nonempty and all digits
  else if (cb ++ cg ++ lettres_vers_nombres nc) = []
      || !((cb ++ cg ++ lettres_vers_nombres nc).all digit09) then []
  else f02 (97 - natOfDigits (cb ++ cg ++ lettres_vers_nombres nc) % 97)

/-- `utils.construire_iban_fr`: all four components required; build the
BBAN, derive the IBAN via `from_bban`, return its formatted form if it
validates, the absent marker otherwise. -/
def construire_iban_fr (cb cg nc cle : List Char) : List Char :=
  if cb = [] || cg = [] || nc = [] || cle = [] then []
  else
    let iban := ibanFromBbanFR (cb ++ cg ++ nc ++ cle)
    if ibanIsValid iban then ibanFormat iban else []

/-- `utils.decomposer_iban_fr`: compact and uppercase; require the `FR`
prefix and validity; slice the BBAN into bank[0:5], branch[5:10],
account[10:21], key[21:23]; any failure yields the all-absent tuple. -/
def decomposer_iban_fr (iban : List Char) : List Char × List Char × List Char × List Char :=
  if iban = [] then ([], [], [], [])
  else
    let c := pyUpper (ibanCompact iban)
    if !(c.take 2 = ['F', 'R'] && ibanIsValid c) then ([], [], [], [])
    else
      let bban := c.drop 4
      (bban.take 5, (bban.drop 5).take 5, (bban.drop 10).take 11, (bban.drop 21).take 2)

/-! ## IBAN search (`utils.extraire_iban_valide`)

Stage 1 compacts the whole text and scans for the French IBAN shape
(`PAT_IBAN_FR_COMPACT.findall`, fixed-length pattern, non-overlapping
left-to-right matches), deduplicates, and returns the first candidate
accepted by the checksum, formatted.  Stage 2 falls back to an `IBAN`
label search. -/

/-- Scanner for `PAT_IBAN_FR_COMPACT.findall`: when `skip` is positive,
the position is still inside the previous (27-character) match and is
passed over without testing, giving the non-overlapping semantics. -/
def findallIbanFRGo (skip : Nat) : List Char → List (List Char)
  | [] => []
  | c :: rest =>
    match skip with
    | s + 1 => findallIbanFRGo s rest
    | 0 =>
      if frShape ((c :: rest).take 27) then
        (c :: rest).take 27 :: findallIbanFRGo 26 rest
      else findallIbanFRGo 0 rest

/-- `PAT_IBAN_FR_COMPACT.findall`: non-overlapping left-to-right matches
of the fixed-length shape `FR\d{2}[A-Z0-9]{23}`. -/
def findallIbanFR (l : List Char) : List (List Char) := findallIbanFRGo 0 l

/-- Order-preserving deduplication.  The Python source iterates over
`set(...)`, whose iteration order is unspecified; the claims proved below
are insensitive to the order, so first-occurrence order is fixed here. -/
def dedupFirst (seen : List (List Char)) : List (List Char) → List (List Char)
  | [] => []
  | x :: xs => if x ∈ seen then dedupFirst seen xs else x :: dedupFirst (x :: seen) xs

/-- The stage-1 loop: return the formatted form of the first candidate
accepted by `iban_lib.is_valid`. -/
def premierIbanValide : List (List Char) → Option (List Char)
  | [] => none
  | c :: rest => if ibanIsValid c then some (ibanFormat c) else premierIbanValide rest

/-- `\b` after a word character: the next character, if any, is not a
word character. -/
def nonWordHead : List Char → Bool
  | [] => true
  | c :: _ => !pyWordChar c

/-- The part of the fallback pattern after the `IBAN` label:
`\s*[:\-]?\s*([A-Za-z0-9 ]{8,50})`, matched against the text following
the label.  Returns the captured group and the number of characters
consumed from `rest`.  The greedy group takes at most 50 class
characters; when fewer than 8 are available, regex backtracking hands
trailing spaces of the last nonempty `\s*` run back to the group until
it reaches exactly 8 characters. -/
def ibanLabelTail (rest : List Char) : Option (List Char × Nat) :=
  let ws1 := rest.takeWhile isPySpace
  let r2 := rest.drop ws1.length
  let punct := match r2 with
    | c :: _ => if c = ':' || c = '-' then 1 else 0
    | [] => 0
  let r3 := r2.drop punct
  let ws2 := r3.takeWhile isPySpace
  let r4 := r3.drop ws2.length
  let run := r4.takeWhile (fun c => pyAlnum c || c = ' ')
  let base := ws1.length + punct + ws2.length
  if 8 ≤ run.length then
    some (run.take 50, base + min run.length 50)
  else
    -- backtracking: the run before the optional punctuation is the live
    -- `\s*` run when no punctuation was consumed
    let avail := ((if punct = 1 then ws2 else ws1).reverse.takeWhile (· = ' ')).length
    if 8 - run.length ≤ avail then
      some ((rest.drop (base - (8 - run.length))).take 8, base + run.length)
    else none

/-- One attempt of the fallback pattern
`(?i)\bIBAN\b\s*[:\-]?\s*([A-Za-z0-9 ]{8,50})` at the head of `l` (the
caller guarantees the leading word boundary).  Returns the captured group
and the total number of characters from the start of `l` to the end of
the match. -/
def ibanLabelAttempt (l : List Char) : Option (List Char × Nat) :=
  match l with
  | i :: b :: a :: n :: rest =>
    if i.toUpper = 'I' && b.toUpper = 'B' && a.toUpper = 'A' && n.toUpper = 'N'
        && nonWordHead rest then
      (ibanLabelTail rest).map fun gk => (gk.1, 4 + gk.2)
    else none
  | _ => none

/-- Any successful label attempt consumes at least the four characters of
`IBAN`. -/
theorem ibanLabelAttempt_consumed {l : List Char} {g : List Char} {k : Nat}
    (h : ibanLabelAttempt l = some (g, k)) : 4 ≤ k := by
  unfold ibanLabelAttempt at h
  split at h
  · split at h
    · obtain ⟨⟨g', m⟩, _, heq⟩ := Option.map_eq_some'.mp h
      simp only [Prod.mk.injEq] at heq
      omega
    · exact absurd h (by simp)
  · exact absurd h (by simp)

/-- All groups captured by `re.finditer` of the fallback pattern, in
order, non-overlapping: after a match of `k` characters, the next `k - 1`
positions are passed over (skip counter), with the word-boundary flag
tracking each passed character. -/
def ibanLabelGroups (t : List Char) : List (List Char) :=
  go true 0 t
where
  go (bnd : Bool) (skip : Nat) : List Char → List (List Char)
    | [] => []
    | c :: rest =>
      match skip with
      | s + 1 => go (!pyWordChar c) s rest
      | 0 =>
        match if bnd then ibanLabelAttempt (c :: rest) else none with
        | some (g, k) => g :: go (!pyWordChar c) (k - 1) rest
        | none => go (!pyWordChar c) 0 rest

/-- The stage-2 loop body: for each captured group, compact and uppercase
it; if it starts with `FR` and has at least 27 characters, truncate to 27
and return the formatted form when the checksum accepts it. -/
def ibanFallbackLoop : List (List Char) → List Char
  | [] => []
  | g :: gs =>
    if (pyUpper (compacter g)).take 2 = ['F', 'R']
        && 27 ≤ (pyUpper (compacter g)).length then
      if ibanIsValid ((pyUpper (compacter g)).take 27) then
        ibanFormat ((pyUpper (compacter g)).take 27)
      else ibanFallbackLoop gs
    else ibanFallbackLoop gs

/-- `utils.extraire_iban_valide`: stage 1 (compact scan) then stage 2
(label fallback); the absent marker when both fail. -/
def extraire_iban_valide (t : List Char) : List Char :=
  match premierIbanValide (dedupFirst [] (findallIbanFR (compactUpper t))) with
  | some r => r
  | none => ibanFallbackLoop (ibanLabelGroups t)

/-! ## Line splitting (`str.splitlines` and `str.split("\n")`)

`utils.extraire_bic_valide` uses `texte.splitlines()`;
`rib_extractor.extraire_bic_valide` uses `texte.split("\n")`. -/

/-- Python `str.splitlines` (ASCII fragment: `\n`, `\r`, `\r\n`
terminators, no trailing empty line). -/
def pySplitlines : List Char → List (List Char)
  | [] => []
  | '\r' :: '\n' :: rest => [] :: pySplitlines rest
  | '\r' :: rest => [] :: pySplitlines rest
  | '\n' :: rest => [] :: pySplitlines rest
  | c :: rest =>
    match pySplitlines rest with
    | line :: lines => (c :: line) :: lines
    | [] => [[c]]

/-- Python `str.split("\n")` (keeps empty fields, `"" → [""]`). -/
def pySplitNL : List Char → List (List Char)
  | [] => [[]]
  | '\n' :: rest => [] :: pySplitNL rest
  | c :: rest =>
    match pySplitNL rest with
    | line :: lines => (c :: line) :: lines
    | [] => [[c]]

/-- `"\n".join(...)`. -/
def joinNL (ls : List (List Char)) : List Char := (ls.intersperse ['\n']).flatten

/-! ## BIC code pattern (`PAT_BIC_CODE`)

Both modules end up with
`re.compile(r'\b[A-Z]{4}[A-Z]{2}[A-Z0-9]{2}(?:[A-Z0-9]{3})?\b')`
(in `utils.py` the second, boundary-anchored definition overrides the
first).  `findall` returns non-overlapping matches, the optional 3-char
branch-code group taken greedily when the trailing boundary allows it. -/

/-- Try the BIC code pattern at the head of `l` (leading `\b` is the
caller's responsibility); returns the match length, preferring 11. -/
def bicCodeAt (l : List Char) : Option Nat :=
  if (l.take 6).length = 6 && (l.take 6).all upperAZ
      && ((l.drop 6).take 2).length = 2 && ((l.drop 6).take 2).all upAlnum then
    if ((l.drop 8).take 3).length = 3 && ((l.drop 8).take 3).all upAlnum
        && nonWordHead (l.drop 11) then some 11
    else if nonWordHead (l.drop 8) then some 8
    else none
  else none

/-- A successful BIC code match has length 8 or 11. -/
theorem bicCodeAt_len {l : List Char} {k : Nat} (h : bicCodeAt l = some k) :
    k = 8 ∨ k = 11 := by
  unfold bicCodeAt at h
  split at h
  · split at h
    · simp_all
    · split at h
      · simp_all
      · exact absurd h (by simp)
  · exact absurd h (by simp)

/-- `PAT_BIC_CODE.findall`: non-overlapping left-to-right matches; after
a match of `k` characters the next `k - 1` positions are passed over,
with the word-boundary flag tracking each passed character. -/
def bicFindall (t : List Char) : List (List Char) :=
  go true 0 t
where
  go (bnd : Bool) (skip : Nat) : List Char → List (List Char)
    | [] => []
    | c :: rest =>
      match skip with
      | s + 1 => go (!pyWordChar c) s rest
      | 0 =>
        match if bnd then bicCodeAt (c :: rest) else none with
        | some k => (c :: rest).take k :: go (!pyWordChar c) (k - 1) rest
        | none => go (!pyWordChar c) 0 rest

/-! ## BIC label patterns (`PAT_BIC`)

`utils.py` anchors the alternation in word boundaries and spells `SWIFT`
tolerantly (`S[\.\s]*W[\.\s]*I[\.\s]*F[\.\s]*T`); `rib_extractor.py` has
no boundary anchors and a literal `SWIFT` alternative.  Only existence of
a match (`PAT_BIC.search`) is ever used. -/

/-- Separator class `[\.\s]` of the OCR-tolerant spellings. -/
def isDotSpace (c : Char) : Bool := c = '.' || isPySpace c

/-- Match the letters of `w` case-insensitively, allowing a (greedy)
`[\.\s]*` run after every letter but the last; returns the rest. -/
def matchSpreadWord : List Char → List Char → Option (List Char)
  | [], l => some l
  | _ :: _, [] => none
  | w :: ws, c :: r =>
    if c.toUpper = w then
      if ws.isEmpty then some r else matchSpreadWord ws (r.dropWhile isDotSpace)
    else none

/-- Match the letters of `w` case-insensitively and contiguously. -/
def matchLitCI : List Char → List Char → Option (List Char)
  | [], l => some l
  | _ :: _, [] => none
  | w :: ws, c :: r => if c.toUpper = w then matchLitCI ws r else none

/-- Match the characters of `w` literally (case-sensitively) and
contiguously: the fence tag `json` of `app.nettoyer_reponse_json`'s
case-1 pattern is matched without `re.IGNORECASE`. -/
def matchLit : List Char → List Char → Option (List Char)
  | [], l => some l
  | _ :: _, [] => none
  | w :: ws, c :: r => if c = w then matchLit ws r else none

/-- `utils.PAT_BIC`, alternative `B[\.\s]*I[\.\s]*C` with its optional
`(?:[\s\./:-]*SWIFT-spread(?:\s*CODE)?)?` suffix, at the head of `l`;
the surrounding `\b...\b` demands a non-word character after whichever
variant is taken. -/
def uAlt1At (l : List Char) : Bool :=
  match matchSpreadWord ['B', 'I', 'C'] l with
  | none => false
  | some r =>
    nonWordHead r ||
      (match matchSpreadWord ['S', 'W', 'I', 'F', 'T']
          (r.dropWhile fun c => isPySpace c || c = '.' || c = '/' || c = ':' || c = '-') with
       | none => false
       | some r2 =>
         nonWordHead r2 ||
           (match matchLitCI ['C', 'O', 'D', 'E'] (r2.dropWhile isPySpace) with
            | some r3 => nonWordHead r3
            | none => false))

/-- `utils.PAT_BIC`, alternative `S[\.\s]*W[\.\s]*I[\.\s]*F[\.\s]*T(?:\s*CODE)?`. -/
def uAlt2At (l : List Char) : Bool :=
  match matchSpreadWord ['S', 'W', 'I', 'F', 'T'] l with
  | none => false
  | some r =>
    nonWordHead r ||
      (match matchLitCI ['C', 'O', 'D', 'E'] (r.dropWhile isPySpace) with
       | some r2 => nonWordHead r2
       | none => false)

/-- `utils.PAT_BIC`, alternative `CODE\s*B[\.\s]*I[\.\s]*C`. -/
def uAlt3At (l : List Char) : Bool :=
  match matchLitCI ['C', 'O', 'D', 'E'] l with
  | none => false
  | some r =>
    match matchSpreadWord ['B', 'I', 'C'] (r.dropWhile isPySpace) with
    | some r2 => nonWordHead r2
    | none => false

/-- `utils.PAT_BIC`, alternative `ADRESSE\s*S[\.\s]*W[\.\s]*I[\.\s]*F[\.\s]*T`. -/
def uAlt4At (l : List Char) : Bool :=
  match matchLitCI ['A', 'D', 'R', 'E', 'S', 'S', 'E'] l with
  | none => false
  | some r =>
    match matchSpreadWord ['S', 'W', 'I', 'F', 'T'] (r.dropWhile isPySpace) with
    | some r2 => nonWordHead r2
    | none => false

/-- `utils.PAT_BIC.search(ligne)`: some alternative matches at some
position with a word boundary before it. -/
def uPatBicSearch (ligne : List Char) : Bool :=
  go true ligne
where
  go (bnd : Bool) : List Char → Bool
    | [] => false
    | c :: rest =>
      (bnd && (uAlt1At (c :: rest) || uAlt2At (c :: rest)
        || uAlt3At (c :: rest) || uAlt4At (c :: rest)))
      || go (!pyWordChar c) rest

/-- `rib_extractor.PAT_BIC.search(ligne)`: same alternatives except that
`SWIFT(?:\s*CODE)?` is spelled literally and there are no `\b` anchors,
so a match is just one of the four heads matching at some position. -/
def rPatBicSearch (ligne : List Char) : Bool :=
  go ligne
where
  go : List Char → Bool
    | [] => false
    | c :: rest =>
      ((matchSpreadWord ['B', 'I', 'C'] (c :: rest)).isSome
        || (matchLitCI ['S', 'W', 'I', 'F', 'T'] (c :: rest)).isSome
        || (match matchLitCI ['C', 'O', 'D', 'E'] (c :: rest) with
            | some r => (matchSpreadWord ['B', 'I', 'C'] (r.dropWhile isPySpace)).isSome
            | none => false)
        || (match matchLitCI ['A', 'D', 'R', 'E', 'S', 'S', 'E'] (c :: rest) with
            | some r => (matchSpreadWord ['S', 'W', 'I', 'F', 'T'] (r.dropWhile isPySpace)).isSome
            | none => false))
      || go rest

/-! ## BIC validation and extraction -/

/-- The shared BIC cleaning expression
`re.sub(r'[^A-Za-z0-9]', '', raw.upper())`. -/
def nettoyageAlnum (raw : List Char) : List Char := (pyUpper raw).filter pyAlnum

/-- `utils.valider_normaliser_bic`: strip non-alphanumerics from the
uppercased input; require length 8 or 11; require the bank code (first
four) and country code (characters 5–6) alphabetic; require the country
code to be `FR`; finally, if the optional `stdnum` validator is loaded,
require it to accept the code (an exception from it also rejects). -/
def valider_normaliser_bic (bicLib : Option (List Char → Bool)) (raw : List Char) :
    List Char :=
  if raw = [] then []
  else if !((nettoyageAlnum raw).length = 8 || (nettoyageAlnum raw).length = 11) then []
  else if !(((nettoyageAlnum raw).take 4).all upperAZ
      && (((nettoyageAlnum raw).drop 4).take 2).all upperAZ) then []
  else if ((nettoyageAlnum raw).drop 4).take 2 ≠ ['F', 'R'] then []
  else
    match bicLib with
    | some valid => if valid (nettoyageAlnum raw) then nettoyageAlnum raw else []
    | none => nettoyageAlnum raw

/-- Loop of `utils.extraire_bic_valide` over a candidate list: the first
candidate the validator accepts, normalised. -/
def premierBicValide (bicLib : Option (List Char → Bool)) :
    List (List Char) → List Char
  | [] => []
  | c :: rest =>
    if valider_normaliser_bic bicLib c ≠ [] then valider_normaliser_bic bicLib c
    else premierBicValide bicLib rest

/-- The labeled-search loop of `utils.extraire_bic_valide`: at each line
matching the BIC label pattern, inspect the window of that line and the
next five, first compacted (`re.sub(r'[^A-Z0-9]', '', fenetre)`) then
raw. -/
def uScanBic (bicLib : Option (List Char → Bool)) : List (List Char) → List Char
  | [] => []
  | ligne :: rest =>
    if uPatBicSearch ligne then
      if premierBicValide bicLib
          (bicFindall ((pyUpper (joinNL ((ligne :: rest).take 6))).filter upAlnum)) ≠ [] then
        premierBicValide bicLib
          (bicFindall ((pyUpper (joinNL ((ligne :: rest).take 6))).filter upAlnum))
      else if premierBicValide bicLib
          (bicFindall (pyUpper (joinNL ((ligne :: rest).take 6)))) ≠ [] then
        premierBicValide bicLib (bicFindall (pyUpper (joinNL ((ligne :: rest).take 6))))
      else uScanBic bicLib rest
    else uScanBic bicLib rest

/-- `utils.extraire_bic_valide`: the labeled search over the `splitlines`
lines, then the global fallback on the compacted uppercased text. -/
def extraire_bic_valide_utils (bicLib : Option (List Char → Bool)) (texte : List Char) :
    List Char :=
  if uScanBic bicLib (pySplitlines texte) ≠ [] then uScanBic bicLib (pySplitlines texte)
  else premierBicValide bicLib (bicFindall ((pyUpper texte).filter upAlnum))

/-- Inner candidate filter of `rib_extractor.extraire_bic_valide`: the
first structurally valid candidate of a line that is not a known address
word.  A loaded `stdnum` validator cannot change the outcome there (both
the accepting branch and the fall-through return the candidate). -/
def rPremierBic : List (List Char) → List Char
  | [] => []
  | bic :: rest =>
    if (bic.length = 8 || bic.length = 11)
        && (bic.take 4).all upperAZ && ((bic.drop 4).take 2).all upperAZ
        && !(bic = ['P', 'A', 'R', 'I', 'S']
          || bic = ['B', 'O', 'U', 'L', 'O', 'G', 'N', 'E']
          || bic = ['F', 'R', 'A', 'N', 'C', 'E']) then bic
    else rPremierBic rest

/-- The per-window line walk of `rib_extractor.extraire_bic_valide`:
search each of the (at most six) window lines in turn. -/
def rWindowBic : List (List Char) → List Char
  | [] => []
  | ligne :: rest =>
    if rPremierBic (bicFindall (pyUpper ligne)) ≠ [] then
      rPremierBic (bicFindall (pyUpper ligne))
    else rWindowBic rest

/-- The labeled-search loop of `rib_extractor.extraire_bic_valide`. -/
def rScanBic : List (List Char) → List Char
  | [] => []
  | ligne :: rest =>
    if rPatBicSearch ligne then
      if rWindowBic ((ligne :: rest).take 6) ≠ [] then rWindowBic ((ligne :: rest).take 6)
      else rScanBic rest
    else rScanBic rest

/-- `rib_extractor.extraire_bic_valide`: walk the `split("\n")` lines; at
each line matching its label pattern, search the next six lines (current
included) one by one; globally fall back to the uppercased raw text,
keeping any candidate of length 8 or 11. -/
def extraire_bic_valide_ribx (texte : List Char) : List Char :=
  if rScanBic (pySplitNL texte) ≠ [] then rScanBic (pySplitNL texte)
  else
    match (bicFindall (pyUpper texte)).find? (fun b => b.length = 8 || b.length = 11) with
    | some b => b
    | none => []

/-! ## Vision-model response handling (`app.py`) -/

/-- Python `str.strip()` (ASCII whitespace). -/
def pyStrip (l : List Char) : List Char :=
  ((l.dropWhile isPySpace).reverse.dropWhile isPySpace).reverse

/-- The tail `\s*```` ``` of the fenced patterns: after the closing
brace, skip whitespace and require three backticks. -/
def fenceTailOk (l : List Char) : Bool :=
  match l.dropWhile isPySpace with
  | '\x60' :: '\x60' :: '\x60' :: _ => true
  | _ => false

/-- The lazy group `(\{.*?\})\s*```` ``` with `re.DOTALL`: from an
opening brace, the shortest extension ending in a `}` whose remainder
passes `fenceTailOk`.  `acc` accumulates the group content reversed. -/
def lazyBraceTo (acc : List Char) : List Char → Option (List Char)
  | [] => none
  | c :: rest =>
    if c = '\x7d' && fenceTailOk rest then some (('\x7b' :: acc.reverse) ++ ['\x7d'])
    else lazyBraceTo (c :: acc) rest

/-- One fenced-block attempt at the head of the text: three backticks,
the literal `tag`, `\s*`, an opening brace, then the lazy group. -/
def matchFenceAt (tag : List Char) (l : List Char) : Option (List Char) :=
  match l with
  | '\x60' :: '\x60' :: '\x60' :: r =>
    match matchLit tag r with
    | some r2 =>
      match r2.dropWhile isPySpace with
      | '\x7b' :: r3 => lazyBraceTo [] r3
      | _ => none
    | none => none
  | _ => none

/-- Search for ```` ```json\s*(\{.*?\})\s*``` ```` (or the generic fence
when `tag = []`): the attempt at the leftmost matching position. -/
def fenceSearch (tag : List Char) : List Char → Option (List Char)
  | [] => none
  | c :: rest =>
    match matchFenceAt tag (c :: rest) with
    | some g => some g
    | none => fenceSearch tag rest

/-- Case 3 of `nettoyer_reponse_json`: `re.search(r"(\{.*\})", texte,
re.DOTALL)` — greedy, so the span runs from the first opening brace
(provided some closing brace follows it) to the last closing brace. -/
def braceSpan : List Char → Option (List Char)
  | [] => none
  | c :: rest =>
    if c = '\x7b' then
      if rest.contains '\x7d' then
        some ('\x7b' :: (rest.reverse.dropWhile (· ≠ '\x7d')).reverse)
      else none
    else braceSpan rest

/-- `app.nettoyer_reponse_json`: empty input unchanged; otherwise try the
```` ```json ```` fence, then the generic ```` ``` ```` fence, then the
first greedy `{...}` span, and fall back to the raw text. -/
def nettoyer_reponse_json (texte : List Char) : List Char :=
  if texte = [] then texte
  else
    match fenceSearch ['j', 's', 'o', 'n'] texte with
    | some g => g
    | none =>
      match fenceSearch [] texte with
      | some g => g
      | none =>
        match braceSpan texte with
        | some g => g
        | none => texte

/-- `app.nettoyer_bic`: strip non-alphanumerics, uppercase, truncate to
11 characters when at least 11 long, otherwise to 8 — no shape check. -/
def nettoyer_bic (bic : List Char) : List Char :=
  if bic = [] then []
  else
    let b := (pyUpper bic).filter pyAlnum
    if 11 ≤ b.length then b.take 11 else b.take 8

/-- `app.nettoyer_iban`: drop spaces, uppercase, regroup in 4-character
blocks separated by single spaces. -/
def nettoyer_iban (iban : List Char) : List Char :=
  if iban = [] then []
  else ibanFormat.groups4 4 (pyUpper (iban.filter (· ≠ ' ')))

/-- `app.nettoyer_domiciliation`: split on newlines, strip each line,
drop the empty ones, re-join with newlines. -/
def nettoyer_domiciliation (dom : List Char) : List Char :=
  if dom = [] then []
  else joinNL (((pySplitNL dom).map pyStrip).filter (· ≠ []))

/-- JSON whitespace. -/
def isJsonWs (c : Char) : Bool := c = ' ' || c = '\t' || c = '\n' || c = '\r'

/-- A quoted JSON string (no escape support); returns content and rest. -/
def jsonString (l : List Char) : Option (List Char × List Char) :=
  match l.dropWhile isJsonWs with
  | '"' :: r =>
    match r.dropWhile (fun c => !(c = '"' || c = '\\')) with
    | '"' :: r2 => some (r.takeWhile (fun c => !(c = '"' || c = '\\')), r2)
    | _ => none
  | _ => none

/-- `"k": "v"` pairs separated by commas, ending at `}` followed only by
whitespace.  The `fuel` counter only bounds the recursion; callers pass
more fuel than the input length, so it never runs out on an input the
grammar accepts. -/
def jsonPairs (fuel : Nat) (l : List Char) (acc : List (List Char × List Char)) :
    Option (List (List Char × List Char)) :=
  match fuel with
  | 0 => none
  | fuel + 1 =>
    match jsonString l with
    | none => none
    | some (k, r) =>
      match r.dropWhile isJsonWs with
      | ':' :: r2 =>
        match jsonString r2 with
        | none => none
        | some (v, r3) =>
          match r3.dropWhile isJsonWs with
          | ',' :: r4 => jsonPairs fuel r4 (acc ++ [(k, v)])
          | '\x7d' :: r4 =>
            if r4.dropWhile isJsonWs = [] then some (acc ++ [(k, v)]) else none
          | _ => none
      | _ => none

/-- Modelled from the spec: Python's `json.loads`, restricted to the flat
string-valued JSON objects that the vision-model prompt mandates
(`{"key": "value", ...}` with no escapes); any other input is a parse
failure.  The inputs evaluated in this development all lie in this
fragment, where the restriction is behaviourally exact. -/
def jsonLoadsFlat (l : List Char) : Option (List (List Char × List Char)) :=
  match l.dropWhile isJsonWs with
  | '\x7b' :: r =>
    match r.dropWhile isJsonWs with
    | '\x7d' :: r2 => if r2.dropWhile isJsonWs = [] then some [] else none
    | _ => jsonPairs (r.length + 1) r []
  | _ => none

/-- Python `data.get(key, "")` on a parsed object. -/
def jsonGet (data : List (List Char × List Char)) (key : List Char) : List Char :=
  match data.find? (fun p => p.1 = key) with
  | some p => p.2
  | none => []

/-- One output row of the vision-model path (`app.py`'s per-file loop);
field names follow the row dictionary. -/
structure Ligne where
  titulaire : List Char
  code_banque : List Char
  code_guichet : List Char
  numero_compte : List Char
  cle_rib : List Char
  iban : List Char
  bic : List Char
  domiciliation : List Char
  erreur : List Char
deriving DecidableEq, Repr

/-- The all-empty row carrying the given error message. -/
def ligneErreur (err : List Char) : Ligne :=
  { titulaire := [], code_banque := [], code_guichet := [], numero_compte := []
    cle_rib := [], iban := [], bic := [], domiciliation := [], erreur := err }

/-- Python `str.startswith`. -/
def pyStartswith (l p : List Char) : Bool := p.isPrefixOf l

/-- The per-file processing of `app.py` as a function of the raw model
response: if the response starts with the literal `"__ERROR__"`, emit an
error row carrying it; otherwise isolate the JSON, parse it, emit the
`"Réponse IA non JSON"` error row on parse failure, and otherwise build
the record from the parsed fields with the cleaning helpers. -/
def traiter_reponse (raw : List Char) : Ligne :=
  if pyStartswith raw "__ERROR__".toList then ligneErreur raw
  else
    match jsonLoadsFlat (nettoyer_reponse_json raw) with
    | none => ligneErreur "Réponse IA non JSON".toList
    | some data =>
      { titulaire := jsonGet data "titulaire".toList
        code_banque := jsonGet data "code_banque".toList
        code_guichet := jsonGet data "code_guichet".toList
        numero_compte := jsonGet data "numero_compte".toList
        cle_rib := jsonGet data "cle_rib".toList
        iban := nettoyer_iban (jsonGet data "iban".toList)
        bic := nettoyer_bic (jsonGet data "bic".toList)
        domiciliation := nettoyer_domiciliation (jsonGet data "domiciliation".toList)
        erreur := [] }

/-! ## Reconciliation (`app_with_ocr.py` / `rib_extractor.py` main loops)

Both loops run the IBAN engine, decompose its result when present, run
the label extractor, and merge field by field with Python's `or`
(`cb = cb or lb_cb`, etc.).  The label extractor
(`extraire_par_libelles`) is kept abstract: the merge behaviour is
proved for every possible label-extraction outcome. -/

/-- The six label-derived fields returned by `extraire_par_libelles`. -/
structure ChampsLibelles where
  cb : List Char
  cg : List Char
  nc : List Char
  cle : List Char
  tit : List Char
  dom : List Char

/-- Python `a or b` on strings: `a` when nonempty, else `b`. -/
def pyOr (a b : List Char) : List Char := if a ≠ [] then a else b

/-- The four reconciled RIB components of the per-file loops (the lines
`cb = cb or lb_cb`, …, of both OCR-path scripts), parameterised by the
label extractor. -/
def fusionner_rib (libelles : List Char → ChampsLibelles) (t : List Char) :
    List Char × List Char × List Char × List Char :=
  let iban := extraire_iban_valide t
  let der := if iban ≠ [] then decomposer_iban_fr iban else ([], [], [], [])
  let lb := libelles t
  (pyOr der.1 lb.cb, pyOr der.2.1 lb.cg, pyOr der.2.2.1 lb.nc, pyOr der.2.2.2 lb.cle)

/-- `app_with_ocr.nz` / `rib_extractor.nz`: the `"MANQUANT"` sentinel for
empty values. -/
def nz (v : List Char) : List Char := if v ≠ [] then v else "MANQUANT".toList

/-- The `BIC / SWIFT` cell of an `app_with_ocr.py` record: the utils BIC
engine on the normalized OCR text, with the missing-value sentinel. -/
def rowBicOcr (bicLib : Option (List Char → Bool)) (texte : List Char) : List Char :=
  nz (extraire_bic_valide_utils bicLib (nettoyer texte))

/-! ## Character-level facts -/

theorem char_eq_of_toNat {a b : Char} (h : a.toNat = b.toNat) : a = b :=
  Char.ext (UInt32.ext h)

theorem char_le_toNat {a b : Char} (h : a ≤ b) : a.toNat ≤ b.toNat := Char.le_def.mp h

theorem upperAZ_toNat {c : Char} (h : upperAZ c = true) :
    65 ≤ c.toNat ∧ c.toNat ≤ 90 := by
  simp only [upperAZ, Bool.and_eq_true, decide_eq_true_eq] at h
  exact ⟨char_le_toNat h.1, char_le_toNat h.2⟩

theorem lowerAZ_toNat {c : Char} (h : lowerAZ c = true) :
    97 ≤ c.toNat ∧ c.toNat ≤ 122 := by
  simp only [lowerAZ, Bool.and_eq_true, decide_eq_true_eq] at h
  exact ⟨char_le_toNat h.1, char_le_toNat h.2⟩

theorem digit09_toNat {c : Char} (h : digit09 c = true) :
    48 ≤ c.toNat ∧ c.toNat ≤ 57 := by
  simp only [digit09, Bool.and_eq_true, decide_eq_true_eq] at h
  exact ⟨char_le_toNat h.1, char_le_toNat h.2⟩

theorem toUpper_eq_of_not_lower {c : Char} (h : c.toNat < 97 ∨ 122 < c.toNat) :
    c.toUpper = c := by
  unfold Char.toUpper
  rw [if_neg]
  omega

theorem toUpper_toNat_of_lower {c : Char} (h1 : 97 ≤ c.toNat) (h2 : c.toNat ≤ 122) :
    c.toUpper.toNat = c.toNat - 32 := by
  unfold Char.toUpper
  rw [if_pos ⟨h1, h2⟩]
  have hv : (c.toNat - 32).isValidChar := Or.inl (by omega)
  unfold Char.ofNat
  rw [dif_pos hv]
  rfl

theorem toUpper_eq_of_upAlnum {c : Char} (h : upAlnum c = true) : c.toUpper = c := by
  apply toUpper_eq_of_not_lower
  simp only [upAlnum, Bool.or_eq_true] at h
  rcases h with h | h
  · exact Or.inl (by have := upperAZ_toNat h; omega)
  · exact Or.inl (by have := digit09_toNat h; omega)

theorem upAlnum_iff_toNat {c : Char} :
    upAlnum c = true ↔ (65 ≤ c.toNat ∧ c.toNat ≤ 90) ∨ (48 ≤ c.toNat ∧ c.toNat ≤ 57) := by
  constructor
  · intro h
    simp only [upAlnum, Bool.or_eq_true] at h
    rcases h with h | h
    · exact Or.inl (upperAZ_toNat h)
    · exact Or.inr (digit09_toNat h)
  · intro h
    simp only [upAlnum, upperAZ, digit09, Bool.or_eq_true, Bool.and_eq_true,
      decide_eq_true_eq, Char.le_def]
    rcases h with ⟨h1, h2⟩ | ⟨h1, h2⟩
    · exact Or.inl ⟨h1, h2⟩
    · exact Or.inr ⟨h1, h2⟩

theorem upAlnum_toUpper {c : Char} (h : pyAlnum c = true) : upAlnum c.toUpper = true := by
  simp only [pyAlnum, Bool.or_eq_true] at h
  rcases h with h | h
  · rcases h with h | h
    · rw [toUpper_eq_of_upAlnum (by simp [upAlnum, h])]
      simp [upAlnum, h]
    · have hb := lowerAZ_toNat h
      rw [upAlnum_iff_toNat, toUpper_toNat_of_lower hb.1 hb.2]
      omega
  · rw [toUpper_eq_of_upAlnum (by simp [upAlnum, h])]
    simp [upAlnum, h]

theorem toUpper_idem (c : Char) : c.toUpper.toUpper = c.toUpper := by
  by_cases h : 97 ≤ c.toNat ∧ c.toNat ≤ 122
  · apply toUpper_eq_of_not_lower
    rw [toUpper_toNat_of_lower h.1 h.2]
    omega
  · have hc : c.toUpper = c := toUpper_eq_of_not_lower (by omega)
    rw [hc]
    exact hc

/-- `toUpper` never turns a non-separator into a separator (the
separators stripped by IBAN compaction are space, hyphen, dot). -/
theorem toUpper_notSep {c : Char} (h : (c = ' ' || c = '-' || c = '.') = false) :
    (c.toUpper = ' ' || c.toUpper = '-' || c.toUpper = '.') = false := by
  by_cases hl : 97 ≤ c.toNat ∧ c.toNat ≤ 122
  · have ht := toUpper_toNat_of_lower hl.1 hl.2
    simp only [Bool.or_eq_false_iff, decide_eq_false_iff_not]
    refine ⟨⟨fun he => ?_, fun he => ?_⟩, fun he => ?_⟩ <;>
      · rw [he] at ht; simp at ht; omega
  · rw [toUpper_eq_of_not_lower (by omega)]
    exact h

theorem pyAlnum_notSep {c : Char} (h : pyAlnum c = true) :
    (c = ' ' || c = '-' || c = '.') = false := by
  simp only [pyAlnum, Bool.or_eq_true] at h
  simp only [Bool.or_eq_false_iff, decide_eq_false_iff_not]
  have hb : 48 ≤ c.toNat ∧ c.toNat ≤ 122 := by
    rcases h with (h | h) | h
    · have := upperAZ_toNat h; omega
    · have := lowerAZ_toNat h; omega
    · have := digit09_toNat h; omega
  refine ⟨⟨fun he => ?_, fun he => ?_⟩, fun he => ?_⟩ <;>
    · subst he; simp at hb

theorem upAlnum_notSep {c : Char} (h : upAlnum c = true) :
    (c = ' ' || c = '-' || c = '.') = false := by
  apply pyAlnum_notSep
  simp only [upAlnum, Bool.or_eq_true] at h
  simp only [pyAlnum, Bool.or_eq_true]
  tauto

/-! ## Mod-97 arithmetic -/

theorem charM97_lt (acc : Nat) (c : Char) : charM97 acc c < 97 := by
  unfold charM97
  split <;> exact Nat.mod_lt _ (by norm_num)

theorem foldl_charM97_lt (l : List Char) (acc : Nat) (h : acc < 97) :
    l.foldl charM97 acc < 97 := by
  induction l generalizing acc with
  | nil => exact h
  | cons c rest ih => exact ih _ (charM97_lt acc c)

theorem digitChar_toNat {d : Nat} (h : d < 10) : (Nat.digitChar d).toNat = 48 + d := by
  interval_cases d <;> rfl

theorem digit09_digitChar {d : Nat} (h : d < 10) : digit09 (Nat.digitChar d) = true := by
  interval_cases d <;> rfl

/-- Feeding a digit character into the mod-97 fold. -/
theorem charM97_digit (acc : Nat) {d : Nat} (h : d < 10) :
    charM97 acc (Nat.digitChar d) = (acc * 10 + d) % 97 := by
  unfold charM97
  rw [if_pos (digit09_digitChar h), digitChar_toNat h]
  congr 1
  omega

/-- The key check-digit identity: appending `FR` and the two check
digits derived from `98 - (numeral(b ++ "FR00") mod 97)` always yields a
string whose mod-97 rearranged numeral is ≡ 1. -/
theorem charM97_zeroChar (a : Nat) : charM97 a '0' = (a * 10) % 97 := by
  unfold charM97
  rw [if_pos (show digit09 '0' = true from rfl)]
  rfl

theorem m97_checkdigits (b : List Char) :
    m97 (b ++ ['F', 'R'] ++ pad2 (98 - m97 (b ++ ['F', 'R', '0', '0']))) = 1 := by
  have hFR00 : b ++ ['F', 'R', '0', '0'] = (b ++ ['F', 'R']) ++ ['0', '0'] := by
    simp
  have hX : m97 (b ++ ['F', 'R', '0', '0']) =
      ((b ++ ['F', 'R']).foldl charM97 0) * 100 % 97 := by
    rw [m97, hFR00, List.foldl_append]
    show charM97 (charM97 _ '0') '0' = _
    rw [charM97_zeroChar, charM97_zeroChar]
    set A := (b ++ ['F', 'R']).foldl charM97 0
    omega
  set A := (b ++ ['F', 'R']).foldl charM97 0 with hA
  have hAlt : A < 97 := foldl_charM97_lt _ 0 (by norm_num)
  set k := 98 - m97 (b ++ ['F', 'R', '0', '0']) with hk
  have hkk : k = 98 - A * 100 % 97 := by rw [hk, hX]
  have hm : A * 100 % 97 < 97 := Nat.mod_lt _ (by norm_num)
  have hd1 : k / 10 < 10 := by omega
  have hd2 : k % 10 < 10 := by omega
  rw [m97, List.foldl_append, ← hA, pad2]
  show charM97 (charM97 A (Nat.digitChar (k / 10))) (Nat.digitChar (k % 10)) = 1
  rw [charM97_digit _ hd1, charM97_digit _ hd2]
  omega

/-! ## Compaction lemmas -/

theorem map_toUpper_eq_self {l : List Char} (h : ∀ c ∈ l, c.toUpper = c) :
    l.map Char.toUpper = l := by
  induction l with
  | nil => rfl
  | cons c rest ih =>
    simp only [List.map_cons, h c (by simp), List.cons.injEq, true_and]
    exact ih fun d hd => h d (by simp [hd])

/-- A string of uppercase alphanumerics is fixed by IBAN compaction. -/
theorem ibanCompact_fixed {l : List Char} (h : l.all upAlnum = true) :
    ibanCompact l = l := by
  unfold ibanCompact pyUpper
  rw [List.all_eq_true] at h
  have hf : l.filter (fun c => !(c = ' ' || c = '-' || c = '.')) = l := by
    apply List.filter_eq_self.mpr
    intro c hc
    rw [upAlnum_notSep (h c hc)]
    rfl
  rw [hf]
  exact map_toUpper_eq_self fun c hc => toUpper_eq_of_upAlnum (h c hc)

/-- IBAN compaction is idempotent. -/
theorem ibanCompact_idem (s : List Char) : ibanCompact (ibanCompact s) = ibanCompact s := by
  unfold ibanCompact pyUpper
  set x := s.filter (fun c => !(c = ' ' || c = '-' || c = '.')) with hx
  have hf : (x.map Char.toUpper).filter (fun c => !(c = ' ' || c = '-' || c = '.'))
      = x.map Char.toUpper := by
    apply List.filter_eq_self.mpr
    intro c hc
    rw [List.mem_map] at hc
    obtain ⟨d, hd, rfl⟩ := hc
    have hd2 : (d = ' ' || d = '-' || d = '.') = false := by
      have := List.of_mem_filter hd
      simpa using this
    rw [toUpper_notSep hd2]
    rfl
  rw [hf, List.map_map]
  apply List.map_congr_left
  intro c _
  exact toUpper_idem c

/-- `pyUpper` is idempotent. -/
theorem pyUpper_idem (s : List Char) : pyUpper (pyUpper s) = pyUpper s := by
  unfold pyUpper
  rw [List.map_map]
  show s.map (Char.toUpper ∘ Char.toUpper) = _
  apply List.map_congr_left
  intro c _
  exact toUpper_idem c

/-- Filtering out the separator characters commutes with the 4-grouping
of `iban_lib.format`: the inserted spaces are exactly what is removed. -/
theorem filter_groups4 (c : List Char) : ∀ k,
    (ibanFormat.groups4 k c).filter (fun c => !(c = ' ' || c = '-' || c = '.'))
      = c.filter (fun c => !(c = ' ' || c = '-' || c = '.')) := by
  induction c with
  | nil => intro k; rfl
  | cons x xs ih =>
    intro k
    cases k with
    | zero =>
      show List.filter _ (' ' :: x :: ibanFormat.groups4 3 xs)
          = List.filter _ (x :: xs)
      rw [show List.filter (fun c => !(c = ' ' || c = '-' || c = '.'))
            (' ' :: x :: ibanFormat.groups4 3 xs)
          = List.filter (fun c => !(c = ' ' || c = '-' || c = '.'))
            (x :: ibanFormat.groups4 3 xs) by simp]
      simp only [List.filter_cons]
      rw [ih 3]
    | succ j =>
      show List.filter _ (x :: ibanFormat.groups4 j xs)
          = List.filter _ (x :: xs)
      simp only [List.filter_cons]
      rw [ih j]

/-- Compacting a formatted IBAN gives back the compacted original. -/
theorem ibanCompact_format (s : List Char) :
    ibanCompact (ibanFormat s) = ibanCompact s := by
  unfold ibanFormat
  show ibanCompact (ibanFormat.groups4 4 (ibanCompact s)) = _
  unfold ibanCompact pyUpper
  rw [filter_groups4]
  rw [← pyUpper, ← pyUpper, ← ibanCompact, ← ibanCompact]
  exact ibanCompact_idem s

/-- Validating a formatted IBAN is validating the IBAN itself. -/
theorem ibanIsValid_format (s : List Char) :
    ibanIsValid (ibanFormat s) = ibanIsValid s := by
  unfold ibanIsValid
  rw [ibanCompact_format]

/-! ## Validity of `from_bban`-built IBANs -/

/-- The IBAN built by `construire_iban_fr`'s `from_bban` call from a
23-character uppercase-alphanumeric BBAN is a valid French IBAN. -/
theorem ibanFromBbanFR_valid {b : List Char} (hlen : b.length = 23)
    (hup : b.all upAlnum = true) : ibanIsValid (ibanFromBbanFR b) = true := by
  have hfix : ibanCompact b = b := ibanCompact_fixed hup
  unfold ibanFromBbanFR
  rw [hfix]
  set k := 98 - m97 (b ++ ['F', 'R', '0', '0']) with hk
  have hklt : m97 (b ++ ['F', 'R', '0', '0']) < 97 :=
    foldl_charM97_lt _ 0 (by norm_num)
  have hk2 : 2 ≤ k ∧ k ≤ 98 := by omega
  have hd1 : k / 10 < 10 := by omega
  have hd2 : k % 10 < 10 := by omega
  have hcons : 'F' :: 'R' :: pad2 k ++ b
      = 'F' :: 'R' :: Nat.digitChar (k / 10) :: Nat.digitChar (k % 10) :: b := by
    rw [pad2]
    rfl
  have hiban : ('F' :: 'R' :: pad2 k ++ b).all upAlnum = true := by
    rw [hcons]
    simp only [List.all_cons, Bool.and_eq_true]
    refine ⟨by decide, by decide, ?_, ?_, hup⟩
    · simp [upAlnum, digit09_digitChar hd1]
    · simp [upAlnum, digit09_digitChar hd2]
  have hcfix : ibanCompact ('F' :: 'R' :: pad2 k ++ b) = 'F' :: 'R' :: pad2 k ++ b :=
    ibanCompact_fixed hiban
  unfold ibanIsValid
  rw [hcfix]
  have hshape : frShape ('F' :: 'R' :: pad2 k ++ b) = true := by
    rw [hcons]
    simp only [frShape]
    rw [digit09_digitChar hd1, digit09_digitChar hd2, hlen, hup]
    simp
  rw [hshape]
  have hdrop : ('F' :: 'R' :: pad2 k ++ b).drop 4 = b := by
    rw [hcons]
    rfl
  have htake : ('F' :: 'R' :: pad2 k ++ b).take 4 = ['F', 'R'] ++ pad2 k := by
    rw [hcons, pad2]
    rfl
  rw [hdrop, htake]
  have hassoc : b ++ (['F', 'R'] ++ pad2 k) = b ++ ['F', 'R'] ++ pad2 k := by
    rw [List.append_assoc]
  rw [hassoc, hk, m97_checkdigits]
  simp

/-- `from_bban` only depends on the compacted BBAN. -/
theorem ibanFromBbanFR_compact (b : List Char) :
    ibanFromBbanFR (ibanCompact b) = ibanFromBbanFR b := by
  unfold ibanFromBbanFR
  rw [ibanCompact_idem]

/-- `from_bban` validity, stated on the compacted BBAN. -/
theorem ibanFromBbanFR_valid' {b : List Char} (hlen : (ibanCompact b).length = 23)
    (hup : (ibanCompact b).all upAlnum = true) :
    ibanIsValid (ibanFromBbanFR b) = true := by
  rw [← ibanFromBbanFR_compact]
  exact ibanFromBbanFR_valid hlen hup

/-- A French-shaped string has 27 characters. -/
theorem frShape_length {l : List Char} (h : frShape l = true) : l.length = 27 := by
  unfold frShape at h
  split at h
  · rename_i rest
    simp only [Bool.and_eq_true, decide_eq_true_eq] at h
    simp [List.length_cons, h.1.2]
  · exact absurd h (by simp)

/-- The 4-grouping of a nonempty string is nonempty. -/
theorem groups4_ne_nil {l : List Char} (h : l ≠ []) (k : Nat) :
    ibanFormat.groups4 k l ≠ [] := by
  cases l with
  | nil => exact absurd rfl h
  | cons c rest =>
    cases k with
    | zero =>
      show (' ' :: c :: ibanFormat.groups4 3 rest) ≠ []
      exact List.cons_ne_nil _ _
    | succ j =>
      show (c :: ibanFormat.groups4 j rest) ≠ []
      exact List.cons_ne_nil _ _

/-- Compaction preserves length on alphanumeric strings. -/
theorem ibanCompact_length_of_pyAlnum {l : List Char} (h : l.all pyAlnum = true) :
    (ibanCompact l).length = l.length := by
  unfold ibanCompact pyUpper
  rw [List.all_eq_true] at h
  have hf : l.filter (fun c => !(c = ' ' || c = '-' || c = '.')) = l := by
    apply List.filter_eq_self.mpr
    intro c hc
    rw [pyAlnum_notSep (h c hc)]
    rfl
  rw [hf, List.length_map]

/-- Compaction of an alphanumeric string is uppercase-alphanumeric. -/
theorem ibanCompact_upAlnum_of_pyAlnum {l : List Char} (h : l.all pyAlnum = true) :
    (ibanCompact l).all upAlnum = true := by
  unfold ibanCompact pyUpper
  rw [List.all_eq_true] at h ⊢
  intro c hc
  rw [List.mem_map] at hc
  obtain ⟨d, hd, rfl⟩ := hc
  exact upAlnum_toUpper (h d (List.mem_of_mem_filter hd))

/-- `construire_iban_fr` succeeds, with a mod-97-valid result, on any
nonempty alphanumeric components assembling to a 23-character BBAN. -/
theorem construire_iban_fr_valid {cb cg nc cle : List Char}
    (hcb : cb ≠ []) (hcg : cg ≠ []) (hnc : nc ≠ []) (hcle : cle ≠ [])
    (hall : (cb ++ cg ++ nc ++ cle).all pyAlnum = true)
    (hlen : (cb ++ cg ++ nc ++ cle).length = 23) :
    construire_iban_fr cb cg nc cle ≠ [] ∧
      ibanIsValid (construire_iban_fr cb cg nc cle) = true := by
  have hclen : (ibanCompact (cb ++ cg ++ nc ++ cle)).length = 23 := by
    rw [ibanCompact_length_of_pyAlnum hall, hlen]
  have hcup := ibanCompact_upAlnum_of_pyAlnum hall
  have hvalid := ibanFromBbanFR_valid' hclen hcup
  have hguard : (decide (cb = []) || decide (cg = []) || decide (nc = [])
      || decide (cle = [])) = false := by
    simp [hcb, hcg, hnc, hcle]
  have hne : construire_iban_fr cb cg nc cle
      = ibanFormat (ibanFromBbanFR (cb ++ cg ++ nc ++ cle)) := by
    unfold construire_iban_fr
    rw [if_neg (by simp [hguard]), if_pos hvalid]
  rw [hne, ibanIsValid_format]
  refine ⟨?_, hvalid⟩
  have hsh : frShape (ibanCompact (ibanFromBbanFR (cb ++ cg ++ nc ++ cle))) = true := by
    have hv := hvalid
    unfold ibanIsValid at hv
    simp only [Bool.and_eq_true] at hv
    exact hv.1
  have h27 := frShape_length hsh
  unfold ibanFormat
  apply groups4_ne_nil
  intro hnil
  rw [hnil] at h27
  simp at h27

/-- `lettres_vers_nombres` produces only decimal digits. -/
theorem lettres_vers_nombres_digits (s : List Char) :
    (lettres_vers_nombres s).all digit09 = true := by
  rw [List.all_eq_true]
  intro c hc
  unfold lettres_vers_nombres at hc
  rw [List.mem_flatMap] at hc
  obtain ⟨a, _, hca⟩ := hc
  by_cases hd : digit09 a = true
  · rw [if_pos hd] at hca
    simp only [List.mem_singleton] at hca
    subst hca
    exact hd
  · rw [if_neg hd] at hca
    by_cases hl : ('A' ≤ a && a ≤ 'Z') = true
    · rw [if_pos hl] at hca
      have hv : 10 + (a.toNat - 65) ≤ 35 := by
        simp only [Bool.and_eq_true, decide_eq_true_eq] at hl
        have h2 := char_le_toNat hl.2
        have hz : ('Z' : Char).toNat = 90 := rfl
        omega
      simp only [pad2, List.mem_cons, List.not_mem_nil, or_false] at hca
      rcases hca with rfl | rfl
      · exact digit09_digitChar (by omega)
      · exact digit09_digitChar (by omega)
    · rw [if_neg hl] at hca
      simp at hca

/-- `calculer_cle_rib` either fails or returns the two-digit print of a
key in 1..97. -/
theorem calculer_cle_rib_cases (cb cg nc : List Char) :
    calculer_cle_rib cb cg nc = [] ∨
      ∃ n, 1 ≤ n ∧ n ≤ 97 ∧ calculer_cle_rib cb cg nc = pad2 n := by
  unfold calculer_cle_rib
  split
  · exact Or.inl rfl
  · split
    · exact Or.inl rfl
    · right
      refine ⟨97 - natOfDigits (cb ++ cg ++ lettres_vers_nombres nc) % 97, ?_, ?_, ?_⟩
      · have := Nat.mod_lt (natOfDigits (cb ++ cg ++ lettres_vers_nombres nc))
          (y := 97) (by norm_num)
        omega
      · omega
      · unfold f02
        rw [if_pos (by omega)]

/-- Claim C1's key is the successful branch of `calculer_cle_rib`. -/
theorem calculer_cle_rib_succeeds {cb cg nc : List Char}
    (hcb : cb ≠ []) (hcg : cg ≠ []) (hnc : nc ≠ [])
    (hdb : cb.all digit09 = true) (hdg : cg.all digit09 = true) :
    ∃ n, 1 ≤ n ∧ n ≤ 97 ∧ calculer_cle_rib cb cg nc = pad2 n := by
  rcases calculer_cle_rib_cases cb cg nc with h | h
  · exfalso
    unfold calculer_cle_rib at h
    have hbase : (cb ++ cg ++ lettres_vers_nombres nc).all digit09 = true := by
      simp only [List.all_append, Bool.and_eq_true]
      exact ⟨⟨hdb, hdg⟩, lettres_vers_nombres_digits nc⟩
    have hbne : cb ++ cg ++ lettres_vers_nombres nc ≠ [] := by
      intro hh
      rw [List.append_eq_nil, List.append_eq_nil] at hh
      exact hcb hh.1.1
    have hg2 : (decide (cb ++ cg ++ lettres_vers_nombres nc = [])
        || !(cb ++ cg ++ lettres_vers_nombres nc).all digit09) = false := by
      rw [hbase]
      simp only [Bool.not_true, Bool.or_false, decide_eq_false_iff_not]
      exact hbne
    rw [if_neg (by simp [hcb, hcg, hnc]), if_neg (by rw [hg2]; simp)] at h
    have hlt : natOfDigits (cb ++ cg ++ lettres_vers_nombres nc) % 97 < 97 :=
      Nat.mod_lt _ (by norm_num)
    unfold f02 at h
    rw [if_pos (by omega)] at h
    exact absurd h (by simp [pad2])
  · exact h

/-- `pad2` of a value below 100 reads back as that value. -/
theorem natOfDigits_pad2 {n : Nat} (h : n < 100) : natOfDigits (pad2 n) = n := by
  unfold natOfDigits pad2
  have h1 : n / 10 < 10 := by omega
  have h2 : n % 10 < 10 := by omega
  simp only [List.foldl_cons, List.foldl_nil, digitChar_toNat h1, digitChar_toNat h2]
  omega

/-- `pad2` has two characters, both digits. -/
theorem pad2_shape {n : Nat} (h : n < 100) :
    (pad2 n).length = 2 ∧ (pad2 n).all digit09 = true := by
  unfold pad2
  refine ⟨rfl, ?_⟩
  simp [digit09_digitChar (show n / 10 < 10 by omega),
    digit09_digitChar (show n % 10 < 10 by omega)]

theorem all_pyAlnum_of_digit09 {l : List Char} (h : l.all digit09 = true) :
    l.all pyAlnum = true := by
  rw [List.all_eq_true] at h ⊢
  intro c hc
  simp [pyAlnum, h c hc]

/-- C1: for every 5-digit bank code, 5-digit branch code and 11-character
alphanumeric account number, `calculer_cle_rib` returns a non-absent key
with which `construire_iban_fr` succeeds and the built IBAN passes the
mod-97 checksum. -/
theorem claim_C1_rib_key_builds_valid_iban (cb cg nc : List Char)
    (hcb5 : cb.length = 5) (hcbd : cb.all digit09 = true)
    (hcg5 : cg.length = 5) (hcgd : cg.all digit09 = true)
    (hnc11 : nc.length = 11) (hnca : nc.all pyAlnum = true) :
    calculer_cle_rib cb cg nc ≠ [] ∧
      construire_iban_fr cb cg nc (calculer_cle_rib cb cg nc) ≠ [] ∧
      ibanIsValid (construire_iban_fr cb cg nc (calculer_cle_rib cb cg nc)) = true := by
  have hcb : cb ≠ [] := by intro hh; rw [hh] at hcb5; simp at hcb5
  have hcg : cg ≠ [] := by intro hh; rw [hh] at hcg5; simp at hcg5
  have hnc : nc ≠ [] := by intro hh; rw [hh] at hnc11; simp at hnc11
  obtain ⟨n, hn1, hn97, hk⟩ := calculer_cle_rib_succeeds hcb hcg hnc hcbd hcgd
  have hksh := pad2_shape (show n < 100 by omega)
  have hkne : calculer_cle_rib cb cg nc ≠ [] := by
    rw [hk]
    simp [pad2]
  refine ⟨hkne, ?_⟩
  rw [hk]
  apply construire_iban_fr_valid hcb hcg hnc (by simp [pad2])
  · simp only [List.all_append, Bool.and_eq_true]
    exact ⟨⟨⟨all_pyAlnum_of_digit09 hcbd, all_pyAlnum_of_digit09 hcgd⟩, hnca⟩,
      all_pyAlnum_of_digit09 hksh.2⟩
  · simp only [List.length_append, hcb5, hcg5, hnc11, hksh.1]

/-- Witness for C1 at bank 30006, branch 00001, account 12345678901. -/
theorem claim_C1_witness :
    ("30006".toList.length = 5 ∧ "30006".toList.all digit09 = true ∧
      "00001".toList.length = 5 ∧ "00001".toList.all digit09 = true ∧
      "12345678901".toList.length = 11 ∧ "12345678901".toList.all pyAlnum = true) ∧
    (calculer_cle_rib "30006".toList "00001".toList "12345678901".toList ≠ [] ∧
      construire_iban_fr "30006".toList "00001".toList "12345678901".toList
        (calculer_cle_rib "30006".toList "00001".toList "12345678901".toList) ≠ [] ∧
      ibanIsValid (construire_iban_fr "30006".toList "00001".toList "12345678901".toList
        (calculer_cle_rib "30006".toList "00001".toList "12345678901".toList)) = true) :=
  ⟨by decide,
   claim_C1_rib_key_builds_valid_iban _ _ _ (by decide) (by decide) (by decide)
     (by decide) (by decide) (by decide)⟩

/-- C10: a non-absent `calculer_cle_rib` result has exactly two
characters, reads back as a value in 1..97, and is never `"00"`. -/
theorem claim_C10_key_range (cb cg nc : List Char)
    (h : calculer_cle_rib cb cg nc ≠ []) :
    (calculer_cle_rib cb cg nc).length = 2 ∧
      1 ≤ natOfDigits (calculer_cle_rib cb cg nc) ∧
      natOfDigits (calculer_cle_rib cb cg nc) ≤ 97 ∧
      calculer_cle_rib cb cg nc ≠ ['0', '0'] := by
  rcases calculer_cle_rib_cases cb cg nc with hc | ⟨n, h1, h97, heq⟩
  · exact absurd hc h
  · rw [heq]
    have hnod := natOfDigits_pad2 (show n < 100 by omega)
    refine ⟨(pad2_shape (by omega)).1, ?_, ?_, ?_⟩
    · rw [hnod]; omega
    · rw [hnod]; omega
    · intro hh
      rw [hh, show natOfDigits ['0', '0'] = 0 from rfl] at hnod
      omega

/-- Witness for C10 at the same concrete RIB components. -/
theorem claim_C10_witness :
    calculer_cle_rib "30006".toList "00001".toList "12345678901".toList ≠ [] ∧
      ((calculer_cle_rib "30006".toList "00001".toList "12345678901".toList).length = 2 ∧
        1 ≤ natOfDigits (calculer_cle_rib "30006".toList "00001".toList "12345678901".toList) ∧
        natOfDigits (calculer_cle_rib "30006".toList "00001".toList "12345678901".toList) ≤ 97 ∧
        calculer_cle_rib "30006".toList "00001".toList "12345678901".toList ≠ ['0', '0']) :=
  ⟨by decide, claim_C10_key_range _ _ _ (by decide)⟩

/-! ## Round-trip lemmas (claim C2) -/

theorem pyUpper_ibanCompact (s : List Char) : pyUpper (ibanCompact s) = ibanCompact s := by
  unfold ibanCompact
  exact pyUpper_idem _

theorem ibanIsValid_compact (s : List Char) : ibanIsValid (ibanCompact s) = ibanIsValid s := by
  unfold ibanIsValid
  rw [ibanCompact_idem]

theorem frShape_decomp {l : List Char} (h : frShape l = true) :
    ∃ d1 d2 rest, l = 'F' :: 'R' :: d1 :: d2 :: rest ∧ digit09 d1 = true ∧
      digit09 d2 = true ∧ rest.length = 23 ∧ rest.all upAlnum = true := by
  unfold frShape at h
  split at h
  · rename_i d1 d2 rest
    simp only [Bool.and_eq_true, decide_eq_true_eq] at h
    exact ⟨d1, d2, rest, rfl, h.1.1.1, h.1.1.2, h.1.2, h.2⟩
  · exact absurd h (by simp)

/--`iban_lib.from_bban` on an already-compact BBAN leaves the BBAN as the
tail of the produced IBAN. -/
theorem ibanFromBbanFR_drop4 {b : List Char} (hup : b.all upAlnum = true) :
    (ibanFromBbanFR b).drop 4 = b := by
  unfold ibanFromBbanFR
  rw [ibanCompact_fixed hup, pad2]
  rfl

/-- The IBAN built from a compact BBAN is uppercase-alphanumeric. -/
theorem ibanFromBbanFR_upAlnum {b : List Char} (hup : b.all upAlnum = true) :
    (ibanFromBbanFR b).all upAlnum = true := by
  unfold ibanFromBbanFR
  rw [ibanCompact_fixed hup]
  have hklt : m97 (b ++ ['F', 'R', '0', '0']) < 97 := foldl_charM97_lt _ 0 (by norm_num)
  rw [pad2]
  simp only [List.cons_append, List.nil_append, List.all_cons, Bool.and_eq_true]
  refine ⟨by decide, by decide, ?_, ?_, hup⟩
  · simp [upAlnum, digit09_digitChar (show (98 - m97 (b ++ ['F', 'R', '0', '0'])) / 10 < 10 by omega)]
  · simp [upAlnum, digit09_digitChar (show (98 - m97 (b ++ ['F', 'R', '0', '0'])) % 10 < 10 by omega)]

/-- Evaluation of `decomposer_iban_fr` on a valid French IBAN: the four
BBAN slices of the compacted input. -/
theorem decomposer_eval {I : List Char} (h : ibanIsValid I = true) :
    decomposer_iban_fr I =
      (((ibanCompact I).drop 4).take 5, (((ibanCompact I).drop 4).drop 5).take 5,
       (((ibanCompact I).drop 4).drop 10).take 11, (((ibanCompact I).drop 4).drop 21).take 2) := by
  have hsh : frShape (ibanCompact I) = true := by
    have hv := h
    unfold ibanIsValid at hv
    simp only [Bool.and_eq_true] at hv
    exact hv.1
  have hIne : I ≠ [] := by
    intro hh
    rw [hh] at hsh
    exact absurd hsh (by decide)
  have hvc : ibanIsValid (ibanCompact I) = true := by
    rw [ibanIsValid_compact]
    exact h
  obtain ⟨d1, d2, rest, hdec, -, -, -, -⟩ := frShape_decomp hsh
  have htake2 : (ibanCompact I).take 2 = ['F', 'R'] := by
    rw [hdec]
    rfl
  unfold decomposer_iban_fr
  rw [if_neg (by simp [hIne]), pyUpper_ibanCompact]
  rw [if_neg (by rw [htake2, hvc]; simp)]

/-- Recomposition of the four decomposition slices. -/
theorem slices_recompose {l : List Char} (hlen : l.length = 23) :
    l.take 5 ++ (l.drop 5).take 5 ++ (l.drop 10).take 11 ++ (l.drop 21).take 2 = l := by
  have h10 : l.take 5 ++ (l.drop 5).take 5 = l.take 10 := (List.take_add l 5 5).symm
  have h21 : l.take 10 ++ (l.drop 10).take 11 = l.take 21 := (List.take_add l 10 11).symm
  have h23 : l.take 21 ++ (l.drop 21).take 2 = l.take 23 := (List.take_add l 21 2).symm
  rw [h10, h21, h23]
  exact List.take_of_length_le (by omega)

/-- C2: decomposing a valid French IBAN, rebuilding an IBAN from the four
components, and decomposing again yields the same four components. -/
theorem claim_C2_decompose_rebuild_roundtrip (I : List Char) (h : ibanIsValid I = true) :
    (match decomposer_iban_fr I with
      | (cb, cg, nc, cle) => decomposer_iban_fr (construire_iban_fr cb cg nc cle))
      = decomposer_iban_fr I := by
  have hsh : frShape (ibanCompact I) = true := by
    have hv := h
    unfold ibanIsValid at hv
    simp only [Bool.and_eq_true] at hv
    exact hv.1
  obtain ⟨d1, d2, rest, hdec, -, -, hlen, hup⟩ := frShape_decomp hsh
  have hdrop4 : (ibanCompact I).drop 4 = rest := by
    rw [hdec]
    rfl
  have heval := decomposer_eval h
  rw [hdrop4] at heval
  rw [heval]
  -- the four slices are nonempty
  have hl5 : (rest.take 5).length = 5 := by
    rw [List.length_take]
    omega
  have hl5' : ((rest.drop 5).take 5).length = 5 := by
    rw [List.length_take, List.length_drop]
    omega
  have hl11 : ((rest.drop 10).take 11).length = 11 := by
    rw [List.length_take, List.length_drop]
    omega
  have hl2 : ((rest.drop 21).take 2).length = 2 := by
    rw [List.length_take, List.length_drop]
    omega
  have hne5 : rest.take 5 ≠ [] := by
    intro hh; rw [hh] at hl5; simp at hl5
  have hne5' : (rest.drop 5).take 5 ≠ [] := by
    intro hh; rw [hh] at hl5'; simp at hl5'
  have hne11 : (rest.drop 10).take 11 ≠ [] := by
    intro hh; rw [hh] at hl11; simp at hl11
  have hne2 : (rest.drop 21).take 2 ≠ [] := by
    intro hh; rw [hh] at hl2; simp at hl2
  have hrecomp : rest.take 5 ++ (rest.drop 5).take 5 ++ (rest.drop 10).take 11
      ++ (rest.drop 21).take 2 = rest := slices_recompose hlen
  have hval' : ibanIsValid (ibanFromBbanFR rest) = true :=
    ibanFromBbanFR_valid hlen hup
  have hcon : construire_iban_fr (rest.take 5) ((rest.drop 5).take 5)
      ((rest.drop 10).take 11) ((rest.drop 21).take 2)
      = ibanFormat (ibanFromBbanFR rest) := by
    unfold construire_iban_fr
    rw [if_neg (by simp [hne5, hne5', hne11, hne2]), hrecomp, if_pos hval']
  show decomposer_iban_fr (construire_iban_fr _ _ _ _) = _
  rw [hcon]
  have hvalf : ibanIsValid (ibanFormat (ibanFromBbanFR rest)) = true := by
    rw [ibanIsValid_format]
    exact hval'
  rw [decomposer_eval hvalf]
  have hcc : ibanCompact (ibanFormat (ibanFromBbanFR rest)) = ibanFromBbanFR rest := by
    rw [ibanCompact_format]
    exact ibanCompact_fixed (ibanFromBbanFR_upAlnum hup)
  rw [hcc, ibanFromBbanFR_drop4 hup]

/-- Witness for C2 at the IBAN of spec scenario A. -/
theorem claim_C2_witness :
    ibanIsValid "FR7630006000011234567890189".toList = true ∧
      (match decomposer_iban_fr "FR7630006000011234567890189".toList with
        | (cb, cg, nc, cle) => decomposer_iban_fr (construire_iban_fr cb cg nc cle))
        = decomposer_iban_fr "FR7630006000011234567890189".toList :=
  ⟨by decide, claim_C2_decompose_rebuild_roundtrip "FR7630006000011234567890189".toList (by decide)⟩

/-! ## BIC validator facts (claims C4, C6, C9) -/

/-- The shape `valider_normaliser_bic` forces on everything it accepts:
length 8 or 11, bank code and country code alphabetic, country code
`FR`. -/
def BicFR (b : List Char) : Prop :=
  (b.length = 8 ∨ b.length = 11) ∧ (b.take 4).all upperAZ = true ∧
    ((b.drop 4).take 2).all upperAZ = true ∧ (b.drop 4).take 2 = ['F', 'R']

/-- Case analysis of `valider_normaliser_bic`: absent, or the cleaned
input with all the structural properties. -/
theorem valider_cases (bicLib : Option (List Char → Bool)) (raw : List Char) :
    valider_normaliser_bic bicLib raw = [] ∨
      (valider_normaliser_bic bicLib raw = nettoyageAlnum raw ∧ BicFR (nettoyageAlnum raw)) := by
  unfold valider_normaliser_bic
  split
  · exact Or.inl rfl
  · split
    · exact Or.inl rfl
    · split
      · exact Or.inl rfl
      · split
        · exact Or.inl rfl
        · rename_i h1 h2 h3 h4
          have hlen : (nettoyageAlnum raw).length = 8 ∨ (nettoyageAlnum raw).length = 11 := by
            by_cases h8 : (nettoyageAlnum raw).length = 8
            · exact Or.inl h8
            · exact Or.inr ((by simpa using h2 : ¬_ → _) h8)
          have halpha : ((nettoyageAlnum raw).take 4).all upperAZ = true ∧
              (((nettoyageAlnum raw).drop 4).take 2).all upperAZ = true := by
            simpa using h3
          have hfr : ((nettoyageAlnum raw).drop 4).take 2 = ['F', 'R'] := by
            simpa using h4
          split
          · split
            · exact Or.inr ⟨rfl, hlen, halpha.1, halpha.2, hfr⟩
            · exact Or.inl rfl
          · exact Or.inr ⟨rfl, hlen, halpha.1, halpha.2, hfr⟩

/-- A non-absent `valider_normaliser_bic` result satisfies `BicFR`. -/
theorem valider_BicFR {bicLib : Option (List Char → Bool)} {raw : List Char}
    (h : valider_normaliser_bic bicLib raw ≠ []) :
    BicFR (valider_normaliser_bic bicLib raw) := by
  rcases valider_cases bicLib raw with hc | ⟨heq, hp⟩
  · exact absurd hc h
  · rw [heq]
    exact hp

/-- A non-absent `premierBicValide` result satisfies `BicFR`. -/
theorem premierBicValide_BicFR {bicLib : Option (List Char → Bool)} :
    ∀ cands, premierBicValide bicLib cands ≠ [] →
      BicFR (premierBicValide bicLib cands) := by
  intro cands h
  induction cands with
  | nil => exact absurd rfl h
  | cons c rest ih =>
    unfold premierBicValide at h ⊢
    split at h
    · rename_i hv
      rw [if_pos hv]
      exact valider_BicFR hv
    · rename_i hv
      rw [if_neg hv]
      exact ih h

/-- A non-absent labeled-search result satisfies `BicFR`. -/
theorem uScanBic_BicFR {bicLib : Option (List Char → Bool)} :
    ∀ lignes, uScanBic bicLib lignes ≠ [] → BicFR (uScanBic bicLib lignes) := by
  intro lignes h
  induction lignes with
  | nil => exact absurd rfl h
  | cons ligne rest ih =>
    unfold uScanBic at h ⊢
    split at h
    · rename_i hlab
      rw [if_pos hlab]
      split at h
      · rename_i hb1
        rw [if_pos hb1]
        exact premierBicValide_BicFR _ hb1
      · rename_i hb1
        rw [if_neg hb1]
        split at h
        · rename_i hb2
          rw [if_pos hb2]
          exact premierBicValide_BicFR _ hb2
        · rename_i hb2
          rw [if_neg hb2]
          exact ih h
    · rename_i hlab
      rw [if_neg hlab]
      exact ih h

/-- A non-absent result of the utils BIC engine satisfies `BicFR` — in
particular its characters 5–6 are `FR`. -/
theorem extraire_bic_valide_utils_BicFR {bicLib : Option (List Char → Bool)}
    {texte : List Char} (h : extraire_bic_valide_utils bicLib texte ≠ []) :
    BicFR (extraire_bic_valide_utils bicLib texte) := by
  unfold extraire_bic_valide_utils at h ⊢
  split at h
  · rename_i hs
    rw [if_pos hs]
    exact uScanBic_BicFR _ hs
  · rename_i hs
    rw [if_neg hs]
    exact premierBicValide_BicFR _ h

/-- C6: `valider_normaliser_bic` accepts only cleaned candidates of
length 8 or 11 with alphabetic bank and country codes and country code
`FR`; consequently it rejects `"BOULOGNE"` and every candidate whose
country code is not `FR`, whatever BIC library is loaded. -/
theorem claim_C6_validate_bic (bicLib : Option (List Char → Bool)) :
    (∀ raw, valider_normaliser_bic bicLib raw ≠ [] →
      valider_normaliser_bic bicLib raw = nettoyageAlnum raw ∧
        ((nettoyageAlnum raw).length = 8 ∨ (nettoyageAlnum raw).length = 11) ∧
        ((nettoyageAlnum raw).take 4).all upperAZ = true ∧
        (((nettoyageAlnum raw).drop 4).take 2).all upperAZ = true ∧
        ((nettoyageAlnum raw).drop 4).take 2 = ['F', 'R']) ∧
    valider_normaliser_bic bicLib "BOULOGNE".toList = [] ∧
    (∀ raw, ((nettoyageAlnum raw).drop 4).take 2 ≠ ['F', 'R'] →
      valider_normaliser_bic bicLib raw = []) := by
  have hrej : ∀ raw, ((nettoyageAlnum raw).drop 4).take 2 ≠ ['F', 'R'] →
      valider_normaliser_bic bicLib raw = [] := by
    intro raw hfr
    rcases valider_cases bicLib raw with hc | ⟨-, -, -, -, hfr'⟩
    · exact hc
    · exact absurd hfr' hfr
  refine ⟨?_, ?_, hrej⟩
  · intro raw h
    rcases valider_cases bicLib raw with hc | ⟨heq, hp⟩
    · exact absurd hc h
    · exact ⟨heq, hp⟩
  · exact hrej "BOULOGNE".toList (by decide)

/-- Witness for C6 with no BIC library, exercising the rejection clause
at the non-FR structurally-shaped candidate `"ABCDDEFF"`. -/
theorem claim_C6_witness :
    valider_normaliser_bic none "BOULOGNE".toList = [] ∧
      ((nettoyageAlnum "ABCDDEFF".toList).drop 4).take 2 ≠ ['F', 'R'] ∧
      valider_normaliser_bic none "ABCDDEFF".toList = [] ∧
      valider_normaliser_bic none "BOUS FRPP XXX".toList ≠ [] :=
  ⟨(claim_C6_validate_bic none).2.1, by decide,
   (claim_C6_validate_bic none).2.2 "ABCDDEFF".toList (by decide), by decide⟩

/-- C4, counterexample to the claim as stated: on the vision-model path,
`nettoyer_bic` performs no shape validation, so a record is emitted with
a non-absent 3-character `bic` (and no error). -/
theorem claim_C4_counterexample :
    (traiter_reponse "\x7b\"bic\": \"123\"\x7d".toList).erreur = [] ∧
      (traiter_reponse "\x7b\"bic\": \"123\"\x7d".toList).bic = "123".toList ∧
      ¬((traiter_reponse "\x7b\"bic\": \"123\"\x7d".toList).bic.length = 8 ∨
        (traiter_reponse "\x7b\"bic\": \"123\"\x7d".toList).bic.length = 11) := by
  decide

/-- C4, amended: on the OCR path through the utils BIC engine
(`app_with_ocr.py`), a record's `BIC / SWIFT` cell that is not the
`"MANQUANT"` sentinel has 8 or 11 characters, alphabetic positions 1–6,
and country code `FR`; the vision path's `nettoyer_bic` gives no such
guarantee. -/
theorem claim_C4_amended_ocr_bic_shape (bicLib : Option (List Char → Bool))
    (texte : List Char) (h : rowBicOcr bicLib texte ≠ "MANQUANT".toList) :
    ((rowBicOcr bicLib texte).length = 8 ∨ (rowBicOcr bicLib texte).length = 11) ∧
      ((rowBicOcr bicLib texte).take 4).all upperAZ = true ∧
      (((rowBicOcr bicLib texte).drop 4).take 2).all upperAZ = true ∧
      ((rowBicOcr bicLib texte).drop 4).take 2 = ['F', 'R'] := by
  unfold rowBicOcr nz at h ⊢
  split at h
  · rename_i hv
    rw [if_pos hv]
    exact extraire_bic_valide_utils_BicFR hv
  · exact absurd rfl h

/-- Witness for C4's amended theorem at a labeled FR BIC. -/
theorem claim_C4_witness :
    rowBicOcr none "BIC: BOUSFRPP".toList ≠ "MANQUANT".toList ∧
      ((rowBicOcr none "BIC: BOUSFRPP".toList).drop 4).take 2 = ['F', 'R'] :=
  ⟨by decide,
   (claim_C4_amended_ocr_bic_shape none "BIC: BOUSFRPP".toList (by decide)).2.2.2⟩

/-- C9, counterexample: the two `extraire_bic_valide` implementations
disagree on `"SWIFT: ABCDDEFF"` — the utils version rejects the German
country code, the rib_extractor version returns the code. -/
theorem claim_C9_counterexample :
    extraire_bic_valide_utils none "SWIFT: ABCDDEFF".toList = [] ∧
      extraire_bic_valide_ribx "SWIFT: ABCDDEFF".toList = "ABCDDEFF".toList ∧
      extraire_bic_valide_utils none "SWIFT: ABCDDEFF".toList ≠
        extraire_bic_valide_ribx "SWIFT: ABCDDEFF".toList := by
  decide

/-- C9, amended: the duplication is a semantic fork, not an accident of
equivalent code — the utils implementation only ever returns BICs with
country code `FR`, while the rib_extractor implementation can return a
candidate with any country code. -/
theorem claim_C9_amended_fork (bicLib : Option (List Char → Bool)) (t : List Char)
    (h : extraire_bic_valide_utils bicLib t ≠ []) :
    ((extraire_bic_valide_utils bicLib t).drop 4).take 2 = ['F', 'R'] ∧
      extraire_bic_valide_ribx "SWIFT: ABCDDEFF".toList ≠ [] ∧
      ((extraire_bic_valide_ribx "SWIFT: ABCDDEFF".toList).drop 4).take 2 ≠ ['F', 'R'] :=
  ⟨(extraire_bic_valide_utils_BicFR h).2.2.2, by decide, by decide⟩

/-- Witness for C9's amended theorem. -/
theorem claim_C9_witness :
    extraire_bic_valide_utils none "BIC: BOUSFRPP".toList ≠ [] ∧
      ((extraire_bic_valide_utils none "BIC: BOUSFRPP".toList).drop 4).take 2 = ['F', 'R'] :=
  ⟨by decide, (claim_C9_amended_fork none "BIC: BOUSFRPP".toList (by decide)).1⟩

/-! ## Claim C3: the sentinel guard of `app.py` -/

/-- C3: the per-file loop's guard tests the literal prefix
`"__ERROR__"`, which none of the sentinels `__ERROR_API__`,
`__ERROR_NO_CANDIDATE__`, `__ERROR_EXCEPTION__` starts with; an
`__ERROR_API__` response therefore flows into JSON parsing — here the
embedded error object parses, so the emitted record carries an empty
error field and the sentinel is silently lost. -/
theorem claim_C3_sentinel_guard_dead :
    pyStartswith "__ERROR_API__ \x7b\"message\": \"quota\"\x7d".toList
        "__ERROR_API__".toList = true ∧
      pyStartswith "__ERROR_API__ \x7b\"message\": \"quota\"\x7d".toList
        "__ERROR__".toList = false ∧
      pyStartswith "__ERROR_NO_CANDIDATE__ x".toList "__ERROR__".toList = false ∧
      pyStartswith "__ERROR_EXCEPTION__ x".toList "__ERROR__".toList = false ∧
      (traiter_reponse "__ERROR_API__ \x7b\"message\": \"quota\"\x7d".toList).erreur = [] ∧
      (traiter_reponse "__ERROR_API__ \x7b\"message\": \"quota\"\x7d".toList).erreur ≠
        "__ERROR_API__ \x7b\"message\": \"quota\"\x7d".toList := by
  decide

/-! ## Claim C7: merge precedence of the reconciliation loops -/

theorem pyOr_spec (a b : List Char) :
    (a ≠ [] → pyOr a b = a) ∧ (a = [] → pyOr a b = b) := by
  unfold pyOr
  constructor
  · intro h
    rw [if_pos h]
  · intro h
    rw [if_neg (by simp [h])]

/-- C7: in the reconciled record, each of the four RIB components equals
the IBAN-derived value whenever that value is present, and the
label-derived value otherwise — for every label extractor and every
text. -/
theorem claim_C7_merge_precedence (libelles : List Char → ChampsLibelles)
    (t : List Char)
    (der : List Char × List Char × List Char × List Char)
    (hder : der = (if extraire_iban_valide t ≠ [] then
      decomposer_iban_fr (extraire_iban_valide t) else ([], [], [], []))) :
    ((der.1 ≠ [] → (fusionner_rib libelles t).1 = der.1) ∧
      (der.1 = [] → (fusionner_rib libelles t).1 = (libelles t).cb)) ∧
    ((der.2.1 ≠ [] → (fusionner_rib libelles t).2.1 = der.2.1) ∧
      (der.2.1 = [] → (fusionner_rib libelles t).2.1 = (libelles t).cg)) ∧
    ((der.2.2.1 ≠ [] → (fusionner_rib libelles t).2.2.1 = der.2.2.1) ∧
      (der.2.2.1 = [] → (fusionner_rib libelles t).2.2.1 = (libelles t).nc)) ∧
    ((der.2.2.2 ≠ [] → (fusionner_rib libelles t).2.2.2 = der.2.2.2) ∧
      (der.2.2.2 = [] → (fusionner_rib libelles t).2.2.2 = (libelles t).cle)) := by
  have h1 : (fusionner_rib libelles t).1 = pyOr der.1 (libelles t).cb := by
    rw [hder]
    rfl
  have h2 : (fusionner_rib libelles t).2.1 = pyOr der.2.1 (libelles t).cg := by
    rw [hder]
    rfl
  have h3 : (fusionner_rib libelles t).2.2.1 = pyOr der.2.2.1 (libelles t).nc := by
    rw [hder]
    rfl
  have h4 : (fusionner_rib libelles t).2.2.2 = pyOr der.2.2.2 (libelles t).cle := by
    rw [hder]
    rfl
  rw [h1, h2, h3, h4]
  exact ⟨pyOr_spec _ _, pyOr_spec _ _, pyOr_spec _ _, pyOr_spec _ _⟩

/-- Witness for C7: with no IBAN in the text, all four merged components
are the label-derived ones. -/
theorem claim_C7_witness :
    (fusionner_rib (fun _ => ⟨"11111".toList, "22222".toList, "ABC".toList,
        "33".toList, [], []⟩) "rien ici".toList).1 = "11111".toList ∧
      (fusionner_rib (fun _ => ⟨"11111".toList, "22222".toList, "ABC".toList,
        "33".toList, [], []⟩) "rien ici".toList).2.2.2 = "33".toList :=
  ⟨((claim_C7_merge_precedence _ "rien ici".toList ([], [], [], []) (by decide)).1).2 rfl,
   ((claim_C7_merge_precedence _ "rien ici".toList ([], [], [], []) (by decide)).2.2.2).2 rfl⟩

/-! ## Claim C8: JSON isolation priority and the greedy third case -/

/-- Without a backtick in the text, no fenced pattern can match. -/
theorem fenceSearch_none_of_no_backtick {tag t : List Char} (h : '\x60' ∉ t) :
    fenceSearch tag t = none := by
  induction t with
  | nil => rfl
  | cons c rest ih =>
    unfold fenceSearch
    have hm : matchFenceAt tag (c :: rest) = none := by
      unfold matchFenceAt
      split
      · rename_i r heq
        exfalso
        apply h
        rw [List.mem_cons]
        left
        injection heq with h1 _
        exact h1.symm
      · rfl
    rw [hm]
    exact ih fun hc => h (List.mem_cons_of_mem _ hc)

/-- Case 3 of `nettoyer_reponse_json` on a text holding an opening brace
(with no earlier one) and a closing brace after it (with no later one):
the greedy span from that first `{` to that last `}`. -/
theorem braceSpan_eval (a c d : List Char) (ha : '\x7b' ∉ a) (hd : '\x7d' ∉ d) :
    braceSpan (a ++ ('\x7b' :: (c ++ '\x7d' :: d)))
      = some ('\x7b' :: (c ++ ['\x7d'])) := by
  induction a with
  | nil =>
    rw [List.nil_append]
    simp only [braceSpan]
    rw [if_pos trivial]
    have hcont : (c ++ '\x7d' :: d).contains '\x7d' = true := by
      simp
    rw [if_pos hcont]
    have hde : d.reverse.dropWhile (· ≠ '\x7d') = [] := by
      rw [List.dropWhile_eq_nil_iff]
      intro x hx
      have hne : x ≠ '\x7d' := by
        intro hxx
        subst hxx
        exact hd (List.mem_reverse.mp hx)
      simpa using hne
    have h1 : (c ++ '\x7d' :: d).reverse = d.reverse ++ '\x7d' :: c.reverse := by
      rw [List.reverse_append, List.reverse_cons, List.append_assoc]
      rfl
    have hrev : ((c ++ '\x7d' :: d).reverse.dropWhile (· ≠ '\x7d')).reverse
        = c ++ ['\x7d'] := by
      rw [h1, List.dropWhile_append, hde]
      simp only [List.isEmpty_nil, if_true]
      rw [List.dropWhile_cons]
      rw [if_neg (by simp)]
      rw [List.reverse_cons, List.reverse_reverse]
    rw [hrev]
  | cons x xs ih =>
    rw [List.cons_append]
    simp only [braceSpan]
    rw [if_neg (by intro hx; exact ha (by rw [hx]; exact List.mem_cons_self _ _))]
    exact ih fun hx => ha (List.mem_cons_of_mem _ hx)

/-- Without an opening brace, case 3 finds nothing. -/
theorem braceSpan_none {t : List Char} (h : '\x7b' ∉ t) : braceSpan t = none := by
  induction t with
  | nil => rfl
  | cons c rest ih =>
    simp only [braceSpan]
    rw [if_neg (by intro hc; exact h (by rw [hc]; exact List.mem_cons_self _ _))]
    exact ih fun hc => h (List.mem_cons_of_mem _ hc)

/-- A literal word matches itself at the head of a text. -/
theorem matchLit_self (w x : List Char) : matchLit w (w ++ x) = some x := by
  induction w with
  | nil => rfl
  | cons c ws ih =>
    show matchLit (c :: ws) (c :: (ws ++ x)) = some x
    unfold matchLit
    rw [if_pos rfl]
    exact ih

/-- The lazy group of the fenced patterns: when the body holds no closing
brace and the text after the closing brace passes the `\s*`-backticks
tail, the group is exactly the braced body. -/
theorem lazyBraceTo_eval (body : List Char) : ∀ acc rest, '\x7d' ∉ body →
    fenceTailOk rest = true →
    lazyBraceTo acc (body ++ '\x7d' :: rest)
      = some ('\x7b' :: ((acc.reverse ++ body) ++ ['\x7d'])) := by
  induction body with
  | nil =>
    intro acc rest _ hf
    show lazyBraceTo acc ('\x7d' :: rest) = _
    unfold lazyBraceTo
    rw [if_pos (by simp [hf])]
    simp
  | cons x xs ih =>
    intro acc rest hb hf
    show lazyBraceTo acc (x :: (xs ++ '\x7d' :: rest)) = _
    unfold lazyBraceTo
    have hxne : ¬x = '\x7d' := fun hxx => hb (by rw [hxx]; exact List.mem_cons_self _ _)
    rw [if_neg (by simp [hxne])]
    rw [ih (x :: acc) rest (fun hm => hb (List.mem_cons_of_mem _ hm)) hf]
    simp

/-- `matchFenceAt` after three backticks, as a plain match on the literal
tag. -/
theorem matchFenceAt_cons (tag r : List Char) :
    matchFenceAt tag ('\x60' :: '\x60' :: '\x60' :: r)
      = (match matchLit tag r with
        | some r2 =>
          (match r2.dropWhile isPySpace with
            | '\x7b' :: r3 => lazyBraceTo [] r3
            | _ => none)
        | none => none) := rfl

/-- A ```` ```json ```` fence followed by whitespace, a braced body with
no inner closing brace, and a whitespace-backticks tail matches, with the
braced body as the group. -/
theorem matchFenceAt_json_eval (s1 body rest : List Char)
    (hs : s1.all isPySpace = true) (hb : '\x7d' ∉ body)
    (hf : fenceTailOk rest = true) :
    matchFenceAt ['j', 's', 'o', 'n']
        ('\x60' :: '\x60' :: '\x60' :: ('j' :: 's' :: 'o' :: 'n' ::
          (s1 ++ '\x7b' :: (body ++ '\x7d' :: rest))))
      = some ('\x7b' :: (body ++ ['\x7d'])) := by
  have hdrop : (s1 ++ '\x7b' :: (body ++ '\x7d' :: rest)).dropWhile isPySpace
      = '\x7b' :: (body ++ '\x7d' :: rest) := by
    rw [List.dropWhile_append]
    have h1 : s1.dropWhile isPySpace = [] := by
      rw [List.dropWhile_eq_nil_iff]
      intro x hx
      exact List.all_eq_true.mp hs x hx
    rw [h1]
    simp only [List.isEmpty_nil, if_true]
    rw [List.dropWhile_cons, if_neg (by decide)]
  rw [matchFenceAt_cons]
  rw [show ('j' :: 's' :: 'o' :: 'n' :: (s1 ++ '\x7b' :: (body ++ '\x7d' :: rest)))
      = ['j', 's', 'o', 'n'] ++ (s1 ++ '\x7b' :: (body ++ '\x7d' :: rest)) from rfl,
    matchLit_self]
  show (match (s1 ++ '\x7b' :: (body ++ '\x7d' :: rest)).dropWhile isPySpace with
      | '\x7b' :: r3 => lazyBraceTo [] r3
      | _ => none) = some ('\x7b' :: (body ++ ['\x7d']))
  rw [hdrop]
  show lazyBraceTo [] (body ++ '\x7d' :: rest) = some ('\x7b' :: (body ++ ['\x7d']))
  rw [lazyBraceTo_eval body [] rest hb hf]
  simp

/-- The ```` ```json ```` search succeeds on a text opening with such a
fence, with the braced body as the group. -/
theorem fenceSearch_json_eval (s1 body rest : List Char)
    (hs : s1.all isPySpace = true) (hb : '\x7d' ∉ body)
    (hf : fenceTailOk rest = true) :
    fenceSearch ['j', 's', 'o', 'n']
        ('\x60' :: '\x60' :: '\x60' :: ('j' :: 's' :: 'o' :: 'n' ::
          (s1 ++ '\x7b' :: (body ++ '\x7d' :: rest))))
      = some ('\x7b' :: (body ++ ['\x7d'])) := by
  show (match matchFenceAt ['j', 's', 'o', 'n'] ('\x60' :: '\x60' :: '\x60' ::
      ('j' :: 's' :: 'o' :: 'n' :: (s1 ++ '\x7b' :: (body ++ '\x7d' :: rest)))) with
    | some g => some g
    | none => fenceSearch ['j', 's', 'o', 'n'] ('\x60' :: '\x60' ::
        ('j' :: 's' :: 'o' :: 'n' :: (s1 ++ '\x7b' :: (body ++ '\x7d' :: rest))))) = _
  rw [matchFenceAt_json_eval s1 body rest hs hb hf]

/-- C8, corrected: `nettoyer_reponse_json` does follow the fence
priority, and the two fenced cases extract the first lazily-matched
braced block inside a fence (the last clause proves the ```` ```json ````
case on any whole fenced text); but the unfenced case extracts the greedy
span from the first opening brace to the last closing brace of the whole
text, not the first well-formed (brace-balanced) block. -/
theorem claim_C8_amended_json_priority :
    (∀ t g, t ≠ [] → fenceSearch ['j', 's', 'o', 'n'] t = some g →
      nettoyer_reponse_json t = g) ∧
    (∀ t g, t ≠ [] → fenceSearch ['j', 's', 'o', 'n'] t = none →
      fenceSearch [] t = some g → nettoyer_reponse_json t = g) ∧
    (∀ t g, t ≠ [] → fenceSearch ['j', 's', 'o', 'n'] t = none →
      fenceSearch [] t = none → braceSpan t = some g → nettoyer_reponse_json t = g) ∧
    (∀ a c d, '\x60' ∉ a ++ ('\x7b' :: (c ++ '\x7d' :: d)) → '\x7b' ∉ a → '\x7d' ∉ d →
      nettoyer_reponse_json (a ++ ('\x7b' :: (c ++ '\x7d' :: d)))
        = '\x7b' :: (c ++ ['\x7d'])) ∧
    (∀ t, '\x60' ∉ t → '\x7b' ∉ t → nettoyer_reponse_json t = t) ∧
    (∀ s1 body rest, s1.all isPySpace = true → '\x7d' ∉ body →
      fenceTailOk rest = true →
      nettoyer_reponse_json ('\x60' :: '\x60' :: '\x60' :: ('j' :: 's' :: 'o' :: 'n' ::
          (s1 ++ '\x7b' :: (body ++ '\x7d' :: rest))))
        = '\x7b' :: (body ++ ['\x7d'])) := by
  have hp1 : ∀ t g, t ≠ [] → fenceSearch ['j', 's', 'o', 'n'] t = some g →
      nettoyer_reponse_json t = g := by
    intro t g ht hj
    unfold nettoyer_reponse_json
    rw [if_neg ht, hj]
  have hp2 : ∀ t g, t ≠ [] → fenceSearch ['j', 's', 'o', 'n'] t = none →
      fenceSearch [] t = some g → nettoyer_reponse_json t = g := by
    intro t g ht hj hg
    unfold nettoyer_reponse_json
    rw [if_neg ht, hj, hg]
  have hp3 : ∀ t g, t ≠ [] → fenceSearch ['j', 's', 'o', 'n'] t = none →
      fenceSearch [] t = none → braceSpan t = some g → nettoyer_reponse_json t = g := by
    intro t g ht hj hg hb
    unfold nettoyer_reponse_json
    rw [if_neg ht, hj, hg, hb]
  refine ⟨hp1, hp2, hp3, ?_, ?_, ?_⟩
  · intro a c d hbt ha hd
    have hne : a ++ ('\x7b' :: (c ++ '\x7d' :: d)) ≠ [] := by
      simp
    exact hp3 _ _ hne (fenceSearch_none_of_no_backtick hbt)
      (fenceSearch_none_of_no_backtick hbt) (braceSpan_eval a c d ha hd)
  · intro t hbt hob
    unfold nettoyer_reponse_json
    split
    · rfl
    · rw [fenceSearch_none_of_no_backtick hbt, fenceSearch_none_of_no_backtick hbt,
        braceSpan_none hob]
  · intro s1 body rest hs hb hf
    exact hp1 _ _ (List.cons_ne_nil _ _) (fenceSearch_json_eval s1 body rest hs hb hf)

/-- C8, counterexample to the claim as stated: on
`"x{"a":1} tail}"` the unfenced case returns the greedy span
`{"a":1} tail}`, which is not brace-balanced (hence not a well-formed
`{...}` block) and differs from the first balanced block `{"a":1}`. -/
theorem claim_C8_counterexample :
    nettoyer_reponse_json "x\x7b\"a\":1\x7d tail\x7d".toList
        = "\x7b\"a\":1\x7d tail\x7d".toList ∧
      (nettoyer_reponse_json "x\x7b\"a\":1\x7d tail\x7d".toList).count '\x7b' ≠
        (nettoyer_reponse_json "x\x7b\"a\":1\x7d tail\x7d".toList).count '\x7d' ∧
      nettoyer_reponse_json "x\x7b\"a\":1\x7d tail\x7d".toList ≠ "\x7b\"a\":1\x7d".toList := by
  decide

/-- Witness for C8's amended theorem: the ```` ```json ```` fence clause
on a fenced response with a later stray closing brace (the fenced block
wins over the greedy span), and the greedy-span clause at a concrete
fence-free text. -/
theorem claim_C8_witness :
    nettoyer_reponse_json
        "\x60\x60\x60json \x7b\"a\": \"1\"\x7d \x60\x60\x60 x\x7d".toList
      = "\x7b\"a\": \"1\"\x7d".toList ∧
      nettoyer_reponse_json "noise \x7b\"k\": \"v\"\x7d end".toList
        = "\x7b\"k\": \"v\"\x7d".toList := by
  constructor
  · have h := claim_C8_amended_json_priority.2.2.2.2.2 " ".toList
      "\"a\": \"1\"".toList " \x60\x60\x60 x\x7d".toList (by decide) (by decide) (by decide)
    exact (by decide :
        "\x60\x60\x60json \x7b\"a\": \"1\"\x7d \x60\x60\x60 x\x7d".toList
          = '\x60' :: '\x60' :: '\x60' :: ('j' :: 's' :: 'o' :: 'n' ::
            (" ".toList ++ '\x7b' ::
              ("\"a\": \"1\"".toList ++ '\x7d' :: " \x60\x60\x60 x\x7d".toList)))) ▸
      (by decide :
        ('\x7b' :: ("\"a\": \"1\"".toList ++ ['\x7d'])) = "\x7b\"a\": \"1\"\x7d".toList) ▸ h
  · have h := claim_C8_amended_json_priority.2.2.2.1 "noise ".toList
      "\"k\": \"v\"".toList " end".toList (by decide) (by decide) (by decide)
    exact (by decide :
        "noise \x7b\"k\": \"v\"\x7d end".toList
          = "noise ".toList ++ ('\x7b' :: ("\"k\": \"v\"".toList ++ '\x7d' :: " end".toList))) ▸
      (by decide :
        ('\x7b' :: ("\"k\": \"v\"".toList ++ ['\x7d'])) = "\x7b\"k\": \"v\"\x7d".toList) ▸ h

/-! ## Claim C5: soundness of `extraire_iban_valide` -/

/-- Every match reported by the compact IBAN scanner is French-shaped and
a contiguous substring of the scanned text. -/
theorem findallIbanFRGo_sound :
    ∀ (l : List Char) (skip : Nat) (g : List Char), g ∈ findallIbanFRGo skip l →
      frShape g = true ∧ g <:+: l := by
  intro l
  induction l with
  | nil =>
    intro skip g hg
    simp [findallIbanFRGo] at hg
  | cons c rest ih =>
    intro skip g hg
    cases skip with
    | succ s =>
      rw [show findallIbanFRGo (s + 1) (c :: rest) = findallIbanFRGo s rest from rfl] at hg
      obtain ⟨h1, h2⟩ := ih s g hg
      exact ⟨h1, h2.trans (List.suffix_cons c rest).isInfix⟩
    | zero =>
      rw [show findallIbanFRGo 0 (c :: rest)
          = (if frShape ((c :: rest).take 27) then
              (c :: rest).take 27 :: findallIbanFRGo 26 rest
            else findallIbanFRGo 0 rest) from rfl] at hg
      by_cases hsh : frShape ((c :: rest).take 27) = true
      · rw [if_pos hsh] at hg
        rcases List.mem_cons.mp hg with rfl | hg'
        · exact ⟨hsh, (List.take_prefix 27 (c :: rest)).isInfix⟩
        · obtain ⟨h1, h2⟩ := ih 26 g hg'
          exact ⟨h1, h2.trans (List.suffix_cons c rest).isInfix⟩
      · rw [if_neg hsh] at hg
        obtain ⟨h1, h2⟩ := ih 0 g hg
        exact ⟨h1, h2.trans (List.suffix_cons c rest).isInfix⟩

/-- A `take` of a `takeWhile` of any suffix is an infix. -/
theorem slice_take_substring {l x : List Char} (k : Nat) (hx : x <:+ l) (p : Char → Bool) :
    (x.takeWhile p).take k <:+: l :=
  ((List.take_prefix _ _).trans (List.takeWhile_prefix _)).isInfix.trans hx.isInfix

/-- A `take` of a `drop` is an infix. -/
theorem drop_take_substring (l : List Char) (n k : Nat) : (l.drop n).take k <:+: l :=
  (List.take_prefix _ _).isInfix.trans (List.drop_suffix _ _).isInfix

/-- A chain of three `drop`s is a suffix. -/
theorem drop3_suffix (l : List Char) (a b c : Nat) : ((l.drop a).drop b).drop c <:+ l :=
  (List.drop_suffix _ _).trans ((List.drop_suffix _ _).trans (List.drop_suffix _ _))

/-- The group captured by the post-label matcher is a contiguous
substring of the matched tail. -/
theorem ibanLabelTail_sound {rest g : List Char} {m : Nat}
    (h : ibanLabelTail rest = some (g, m)) : g <:+: rest := by
  unfold ibanLabelTail at h
  dsimp only at h
  split at h
  · simp only [Option.some.injEq, Prod.mk.injEq] at h
    obtain ⟨hg, -⟩ := h
    rw [← hg]
    exact slice_take_substring 50 (drop3_suffix rest _ _ _) _
  · split at h
    all_goals split at h
    all_goals
      first
        | exact Option.noConfusion h
        | (simp only [Option.some.injEq, Prod.mk.injEq] at h
           obtain ⟨hg, -⟩ := h
           rw [← hg]
           exact drop_take_substring rest _ 8)

/-- The group captured by a label attempt is a contiguous substring of
the text it was attempted on. -/
theorem ibanLabelAttempt_sound {l g : List Char} {k : Nat}
    (h : ibanLabelAttempt l = some (g, k)) : g <:+: l := by
  unfold ibanLabelAttempt at h
  split at h
  · rename_i i b a n rest
    split at h
    · obtain ⟨⟨g', m⟩, hm, heq⟩ := Option.map_eq_some'.mp h
      simp only [Prod.mk.injEq] at heq
      obtain ⟨hg, -⟩ := heq
      rw [← hg]
      have hsuf : rest <:+ i :: b :: a :: n :: rest :=
        (List.suffix_cons n rest).trans ((List.suffix_cons a _).trans
          ((List.suffix_cons b _).trans (List.suffix_cons i _)))
      exact (ibanLabelTail_sound hm).trans hsuf.isInfix
    · exact absurd h (by simp)
  · exact absurd h (by simp)

/-- Every group produced by the label scanner is a contiguous substring
of the scanned text. -/
theorem ibanLabelGroups_go_sound :
    ∀ (l : List Char) (bnd : Bool) (skip : Nat) (g : List Char),
      g ∈ ibanLabelGroups.go bnd skip l → g <:+: l := by
  intro l
  induction l with
  | nil =>
    intro bnd skip g hg
    simp [ibanLabelGroups.go] at hg
  | cons c rest ih =>
    intro bnd skip g hg
    cases skip with
    | succ s =>
      rw [show ibanLabelGroups.go bnd (s + 1) (c :: rest)
          = ibanLabelGroups.go (!pyWordChar c) s rest from rfl] at hg
      exact (ih _ _ g hg).trans (List.suffix_cons c rest).isInfix
    | zero =>
      cases bnd with
      | false =>
        rw [show ibanLabelGroups.go false 0 (c :: rest)
            = ibanLabelGroups.go (!pyWordChar c) 0 rest from rfl] at hg
        exact (ih _ _ g hg).trans (List.suffix_cons c rest).isInfix
      | true =>
        rw [show ibanLabelGroups.go true 0 (c :: rest)
            = (match ibanLabelAttempt (c :: rest) with
              | some (g0, k0) => g0 :: ibanLabelGroups.go (!pyWordChar c) (k0 - 1) rest
              | none => ibanLabelGroups.go (!pyWordChar c) 0 rest) from rfl] at hg
        cases hatt : ibanLabelAttempt (c :: rest) with
        | none =>
          rw [hatt] at hg
          exact (ih _ _ g hg).trans (List.suffix_cons c rest).isInfix
        | some gk =>
          obtain ⟨g0, k0⟩ := gk
          rw [hatt] at hg
          rcases List.mem_cons.mp hg with rfl | hg'
          · exact ibanLabelAttempt_sound hatt
          · exact (ih _ _ g hg').trans (List.suffix_cons c rest).isInfix

/-- The stage-1 loop only ever returns the formatted form of a candidate
the checksum accepted. -/
theorem premierIbanValide_eq :
    ∀ (cands : List (List Char)) (r : List Char), premierIbanValide cands = some r →
      ∃ cand, ibanIsValid cand = true ∧ r = ibanFormat cand := by
  intro cands
  induction cands with
  | nil =>
    intro r h
    simp [premierIbanValide] at h
  | cons c rest ih =>
    intro r h
    unfold premierIbanValide at h
    by_cases hv : ibanIsValid c = true
    · rw [if_pos hv] at h
      simp only [Option.some.injEq] at h
      exact ⟨c, hv, h.symm⟩
    · rw [if_neg hv] at h
      exact ih r h

/-- A non-absent stage-2 result passes the checksum. -/
theorem ibanFallbackLoop_valid :
    ∀ gs, ibanFallbackLoop gs ≠ [] → ibanIsValid (ibanFallbackLoop gs) = true := by
  intro gs h
  induction gs with
  | nil => exact absurd rfl h
  | cons g rest ih =>
    unfold ibanFallbackLoop at h ⊢
    split at h
    · rename_i hgate
      rw [if_pos hgate]
      split at h
      · rename_i hval
        rw [if_pos hval, ibanIsValid_format]
        exact hval
      · rename_i hval
        rw [if_neg hval]
        exact ih h
    · rename_i hgate
      rw [if_neg hgate]
      exact ih h

/-- The compact-and-uppercase of any string is uppercase-alphanumeric. -/
theorem compacter_upAlnum (g : List Char) : (pyUpper (compacter g)).all upAlnum = true := by
  rw [List.all_eq_true]
  intro c hc
  rw [pyUpper, List.mem_map] at hc
  obtain ⟨d, hd, rfl⟩ := hc
  exact upAlnum_toUpper (List.of_mem_filter hd)

/-- Compact-and-uppercase preserves the substring relation. -/
theorem pyUpper_compacter_substring {g t : List Char} (h : g <:+: t) :
    pyUpper (compacter g) <:+: compactUpper t :=
  (h.filter pyAlnum).map Char.toUpper

/-- If the compacted text holds no French-shaped substring, the label
fallback rejects every captured group. -/
theorem ibanFallbackLoop_nil {t : List Char}
    (hs : ∀ s, s <:+: compactUpper t → frShape s = false) :
    ∀ gs, (∀ g ∈ gs, g <:+: t) → ibanFallbackLoop gs = [] := by
  intro gs
  induction gs with
  | nil => intro _; rfl
  | cons g rest ih =>
    intro hgs
    unfold ibanFallbackLoop
    split
    · rename_i hgate
      split
      · rename_i hval
        exfalso
        have hup27 : ((pyUpper (compacter g)).take 27).all upAlnum = true := by
          have hall := compacter_upAlnum g
          rw [List.all_eq_true] at hall ⊢
          intro x hx
          exact hall x (List.mem_of_mem_take hx)
        have hfix : ibanCompact ((pyUpper (compacter g)).take 27)
            = (pyUpper (compacter g)).take 27 := ibanCompact_fixed hup27
        have hshape : frShape ((pyUpper (compacter g)).take 27) = true := by
          have hv := hval
          unfold ibanIsValid at hv
          simp only [Bool.and_eq_true] at hv
          rw [hfix] at hv
          exact hv.1
        have hinf : (pyUpper (compacter g)).take 27 <:+: compactUpper t :=
          (List.take_prefix _ _).isInfix.trans
            (pyUpper_compacter_substring (hgs g (List.mem_cons_self _ _)))
        rw [hs _ hinf] at hshape
        exact Bool.noConfusion hshape
      · exact ih fun x hx => hgs x (List.mem_cons_of_mem _ hx)
    · exact ih fun x hx => hgs x (List.mem_cons_of_mem _ hx)

/-- If the compacted text holds no French-shaped substring, stage 1
finds no candidate at all. -/
theorem findall_nil_of_no_shape {t : List Char}
    (hs : ∀ s, s <:+: compactUpper t → frShape s = false) :
    findallIbanFR (compactUpper t) = [] := by
  cases hfa : findallIbanFR (compactUpper t) with
  | nil => rfl
  | cons g gs =>
    exfalso
    have hmem : g ∈ findallIbanFRGo 0 (compactUpper t) := by
      rw [show findallIbanFRGo 0 (compactUpper t) = findallIbanFR (compactUpper t) from rfl,
        hfa]
      exact List.mem_cons_self _ _
    obtain ⟨h1, h2⟩ := findallIbanFRGo_sound _ 0 g hmem
    rw [hs g h2] at h1
    exact Bool.noConfusion h1

/-- C5: `extraire_iban_valide` returns the absent marker or a string
passing the mod-97 validation; and on any text whose compacted form
contains no substring of the French IBAN shape, it returns absent. -/
theorem claim_C5_extraire_iban_sound (t : List Char) :
    (extraire_iban_valide t ≠ [] → ibanIsValid (extraire_iban_valide t) = true) ∧
      ((∀ s, s <:+: compactUpper t → frShape s = false) → extraire_iban_valide t = []) := by
  constructor
  · intro h
    unfold extraire_iban_valide at h ⊢
    cases hp : premierIbanValide (dedupFirst [] (findallIbanFR (compactUpper t))) with
    | some r =>
      obtain ⟨cand, hv, hr⟩ := premierIbanValide_eq _ r hp
      show ibanIsValid r = true
      rw [hr, ibanIsValid_format]
      exact hv
    | none =>
      rw [hp] at h
      exact ibanFallbackLoop_valid _ h
  · intro hs
    unfold extraire_iban_valide
    rw [findall_nil_of_no_shape hs]
    show ibanFallbackLoop (ibanLabelGroups t) = []
    exact ibanFallbackLoop_nil hs _ fun g hg => ibanLabelGroups_go_sound t true 0 g hg

/-- Witness for C5: absent on a shape-free text, and a valid formatted
IBAN on spec scenario A's text. -/
theorem claim_C5_witness :
    extraire_iban_valide "hello world".toList = [] ∧
      extraire_iban_valide "IBAN: FR76 3000 6000 0112 3456 7890 189".toList ≠ [] ∧
      ibanIsValid
        (extraire_iban_valide "IBAN: FR76 3000 6000 0112 3456 7890 189".toList) = true := by
  refine ⟨?_, by decide, ?_⟩
  · apply (claim_C5_extraire_iban_sound "hello world".toList).2
    intro s hsinf
    have hlen : s.length ≤ 10 := by
      have h10 : (compactUpper "hello world".toList).length = 10 := by decide
      have := hsinf.length_le
      omega
    cases hfs : frShape s with
    | false => rfl
    | true =>
      exfalso
      have := frShape_length hfs
      omega
  · exact (claim_C5_extraire_iban_sound _).1 (by decide)

end RibExtractor
